import Mathlib

/-!
# DarkMMap: a verification development for `src/DarkMMap.h`

The header declares the loader flags `eLoadFlags`, the per-module record
`ImageContext` (with its constructor), and the interface of the image mapper
`CDarkMMap`.  The first part of this file embeds what the header defines.
The bodies of the member functions of `CDarkMMap` are not part of the header;
the operations whose behaviour is needed are modelled from the written
specification, and each such definition says so in its doc comment.
-/

set_option linter.dupNamespace false

namespace ds_mmap

/-! ## Loader flags (`enum eLoadFlags`, DarkMMap.h lines 19-32) -/

/-- The enumerators of `eLoadFlags`. -/
inductive eLoadFlags where
  | NoFlags
  | ManualImports
  | CreateLdrRef
  | UnlinkVAD
  | RebaseProcess
  | NoExceptions
  | PartialExcept
  | NoDelayLoad
  | NoSxS
  | NoTLS
  deriving DecidableEq, Fintype

/-- The integer value of each enumerator, as written in the header. -/
def eLoadFlags.val : eLoadFlags → Nat
  | .NoFlags       => 0x00
  | .ManualImports => 0x01
  | .CreateLdrRef  => 0x02
  | .UnlinkVAD     => 0x04
  | .RebaseProcess => 0x20
  | .NoExceptions  => 0x01000
  | .PartialExcept => 0x02000
  | .NoDelayLoad   => 0x04000
  | .NoSxS         => 0x08000
  | .NoTLS         => 0x10000

/-- The first group of enumerators in the header (mapping behaviour). -/
def eLoadFlags.isBehaviour : eLoadFlags → Bool
  | .ManualImports | .CreateLdrRef | .UnlinkVAD | .RebaseProcess => true
  | _ => false

/-- The second group of enumerators in the header (runtime / ABI options). -/
def eLoadFlags.isRuntime : eLoadFlags → Bool
  | .NoExceptions | .PartialExcept | .NoDelayLoad | .NoSxS | .NoTLS => true
  | _ => false

/-- A flags value is an `eLoadFlags` used as a bit set: the bitwise OR of the
enumerators that are switched on. -/
def flagsOr (S : Finset eLoadFlags) : Nat :=
  S.fold (· ||| ·) 0 eLoadFlags.val

/-- Bitwise complement of a mask in the 32-bit underlying type of the enum. -/
def complement32 (m : Nat) : Nat := 0xFFFFFFFF ^^^ m

/-- The default value of the `flags` parameter of both `MapDll` overloads
(`eLoadFlags flags = NoFlags`, DarkMMap.h lines 83-84). -/
def MapDll_defaultFlags : Nat := eLoadFlags.NoFlags.val

/-! ## Collaborator records held by an image context

`CFileProjection` and `ds_pe::CPEManger` are declared in other headers; only
the data that the mapper reads from them is represented. -/

/-- Kind of a base-relocation entry: an absolute 32-bit patch, an absolute
64-bit patch, or the no-op marker used for alignment. -/
inductive RelocKind where
  | noop
  | abs32
  | abs64
  deriving DecidableEq

/-- Number of bytes patched by an entry of the given kind. -/
def RelocKind.width : RelocKind → Nat
  | .noop  => 0
  | .abs32 => 4
  | .abs64 => 8

/-- One entry of the base-relocation directory: its kind and the offset of the
patched value from the start of the image. -/
structure RelocEntry where
  kind   : RelocKind
  offset : Nat
  deriving DecidableEq

/-- What an export resolves to: code at an offset inside the exporting image,
or a forwarder string "OtherModule.Symbol" (already split at the dot). -/
inductive ExportTarget where
  | addr (rva : Nat)
  | forwarder (module : String) (symbol : String)
  deriving DecidableEq

/-- One export: its ordinal, its name when it has one, and its target. -/
structure ExportEntry where
  ordinal : Nat
  name    : Option String
  target  : ExportTarget
  deriving DecidableEq

/-- One import descriptor: the module referred to and the symbols taken from it. -/
structure ImportDesc where
  module  : String
  symbols : List String
  deriving DecidableEq

/-- One section of the image: where it goes in the mapped image, its size
there, and its bytes in the file. -/
structure Section where
  VirtualAddress : Nat
  VirtualSize    : Nat
  rawData        : List Nat
  deriving DecidableEq

/-- Local projection of the image file (`CFileProjection`): the file's bytes. -/
structure CFileProjection where
  data : List Nat := []
  deriving DecidableEq

/-- Parsed structure of the image (`ds_pe::CPEManger`). -/
structure CPEManger where
  ImageBase    : Nat := 0
  ImageSize    : Nat := 0
  Is64Bit      : Bool := false
  IsPureManaged : Bool := false
  IsExe        : Bool := false
  headers      : List Nat := []
  sections     : List Section := []
  relocs       : List RelocEntry := []
  imports      : List ImportDesc := []
  delayImports : List ImportDesc := []
  exports      : List ExportEntry := []
  tlsCallbacks : List Nat := []
  entryPoint   : Nat := 0
  deriving DecidableEq

/-! ## `struct ImageContext` (DarkMMap.h lines 35-59) -/

/-- The per-module record.  Pointers are plain addresses, `0` being `nullptr`. -/
structure ImageContext where
  Image         : CFileProjection
  ImagePE       : CPEManger
  flags         : Nat
  pTargetBase   : Nat
  pExpTableAddr : Nat
  tlsCallbacks  : List Nat
  FilePath      : String
  FileName      : String
  EntryPoint    : Nat
  deriving DecidableEq

/-- The constructor `ImageContext()`: the member initialiser list sets `flags`,
`pTargetBase`, `pExpTableAddr`, `FilePath` and `EntryPoint`; the remaining
members are default-constructed. -/
def ImageContext.ImageContext : ImageContext where
  Image         := {}
  ImagePE       := {}
  flags         := eLoadFlags.NoFlags.val
  pTargetBase   := 0
  pExpTableAddr := 0
  tlsCallbacks  := []
  FilePath      := ""
  FileName      := ""
  EntryPoint    := 0

/-! ## `CallFunction`: the execution thread argument (DarkMMap.h lines 107-125) -/

/-- The null handle. -/
def NULL : Nat := 0

/-- The Windows constant `INVALID_HANDLE_VALUE`, that is `(HANDLE)-1`, for a
pointer of `ptrBits` bits. -/
def INVALID_HANDLE_VALUE (ptrBits : Nat) : Nat := 2 ^ ptrBits - 1

/-- Where a remote call is executed. -/
inductive ExecutionTarget where
  | newThread
  | workerThread
  | existingThread (hThread : Nat)
  deriving DecidableEq

/-- The meaning of `hContextThread` as documented on `CallFunction`:
"if NULL - function will be executed in new thread; if INVALID_HANDLE_VALUE -
function will be executed in default worker thread"; any other value is the
execution thread itself. -/
def executionTarget (ptrBits : Nat) (hContextThread : Nat) : ExecutionTarget :=
  if hContextThread = NULL then .newThread
  else if hContextThread = INVALID_HANDLE_VALUE ptrBits then .workerThread
  else .existingThread hContextThread

/-- The declared default of the last parameter of `CallFunction`
(`HANDLE hContextThread = INVALID_HANDLE_VALUE`, line 125). -/
def CallFunction_defaultContextThread (ptrBits : Nat) : Nat :=
  INVALID_HANDLE_VALUE ptrBits

/-! ## The mapper state (`class CDarkMMap`, private members, DarkMMap.h lines 226-231)

`m_pTopImage` is a non-owning pointer to the context being worked on; it
carries no state of its own and is not represented. -/

/-- An operation performed on the target process.  `reason` is the
`dwReason` of an entry-point or TLS-callback call. -/
inductive RemoteOp where
  | protectMemory (base : Nat)
  | writeImports (base : Nat)
  | writeCookie (base : Nat)
  | callTlsCallback (callback : Nat) (hModule : Nat) (reason : Nat)
  | callEntryPoint (entry : Nat) (hModule : Nat) (reason : Nat)
  | enableExceptions (hModule : Nat) (fullSupport : Bool)
  | disableExceptions (hModule : Nat)
  | createLdrRef (hModule : Nat)
  | releaseActx (hActx : Nat)
  | setImageBase (base : Nat)
  | freeMemory (base : Nat)
  deriving DecidableEq

/-- The target process as the mapper sees it (`ds_process::CProcess`, declared
in another header): the regions allocated in it with their bytes, the image
base it records for itself, and the operations performed on it, oldest first. -/
structure CProcess where
  memory    : List (Nat × List Nat) := []
  imageBase : Nat := 0
  history   : List RemoteOp := []
  deriving DecidableEq

/-- The data members of `CDarkMMap`. -/
structure CDarkMMap where
  m_Images        : List ImageContext
  m_TargetProcess : CProcess
  m_tlsIndex      : Int
  m_pAContext     : Nat
  deriving DecidableEq

/-! ## Export resolution (`GetProcAddressEx`, specification section 4.3) -/

/-- A request to `GetProcAddressEx`: by ordinal or by name. -/
inductive ProcRequest where
  | ordinal (n : Nat)
  | name (s : String)
  deriving DecidableEq

/-- Value of a string of decimal digits. -/
def digitsValue (cs : List Char) : Nat :=
  cs.foldl (fun n c => 10 * n + (c.toNat - 48)) 0

/-- Modelled from the spec: the body of `GetProcAddressEx` is not in the
header.  The request string is an ordinal "if the string parses as a
non-negative integer" and a name otherwise. -/
def parseProcName (procName : String) : ProcRequest :=
  if procName.data ≠ [] ∧ procName.data.all Char.isDigit = true then
    .ordinal (digitsValue procName.data)
  else
    .name procName

/-- Whether an export is the one a request asks for. -/
def ProcRequest.selects : ProcRequest → ExportEntry → Bool
  | .ordinal n, e => e.ordinal == n
  | .name s, e    => e.name == some s

/-- Modelled from the spec: part of `GetProcAddressEx`, whose body is not in the
header; the walk of the export directory for a request, which yields the
first export the request selects. -/
def findExport (exports : List ExportEntry) (req : ProcRequest) : Option ExportEntry :=
  exports.find? req.selects

/-- Modelled from the spec: part of `GetProcAddressEx`, whose body is not in the
header; "locates the owning context by exact base-address match". -/
def findContext (images : List ImageContext) (hMod : Nat) : Option ImageContext :=
  images.find? (fun c => c.pTargetBase == hMod)

/-- Modelled from the spec: part of `GetProcAddressEx` and of `ResolveImport`,
whose bodies are not in the header; the tracked context of the module a
forwarder or an import descriptor names. -/
def findModule (images : List ImageContext) (name : String) : Option ImageContext :=
  images.find? (fun c => c.FileName == name)

/-- Modelled from the spec: the recursion of `GetProcAddressEx`, whose body is
not in the header; export resolution with forwarder chasing, "bounded
by a fixed maximum forwarding depth and a visited-module set".  `depth` is the
number of modules that may still be entered, `visited` the bases of the modules
entered so far.  The result is the null address "on not-found, unresolved
module, or depth exhaustion". -/
def resolveExport (images : List ImageContext) :
    Nat → List Nat → Nat → ProcRequest → Nat
  | 0, _, _, _ => NULL
  | depth + 1, visited, hMod, req =>
    if hMod ∈ visited then NULL
    else
      match findContext images hMod with
      | none => NULL
      | some ctx =>
        match findExport ctx.ImagePE.exports req with
        | none => NULL
        | some e =>
          match e.target with
          | .addr rva => hMod + rva
          | .forwarder m sym =>
            match findModule images m with
            | none => NULL
            | some tgt =>
              resolveExport images depth (hMod :: visited) tgt.pTargetBase (parseProcName sym)

/-- Modelled from the spec: `GetProcAddressEx(mod, procName)`, the body of which
is not in the header.  `maxDepth` is the configured maximum forwarding depth:
up to `maxDepth` forwarders are followed. -/
def GetProcAddressEx (maxDepth : Nat) (s : CDarkMMap) (mod : Nat) (procName : String) : Nat :=
  resolveExport s.m_Images (maxDepth + 1) [] mod (parseProcName procName)

/-- One forwarder hop: from a module and a request to the module and request
the matched export forwards to, when it is a forwarder whose module resolves. -/
def forwardStep (images : List ImageContext) (p : Nat × ProcRequest) :
    Option (Nat × ProcRequest) :=
  match findContext images p.1 with
  | none => none
  | some ctx =>
    match findExport ctx.ImagePE.exports p.2 with
    | none => none
    | some e =>
      match e.target with
      | .addr _ => none
      | .forwarder m sym =>
        match findModule images m with
        | none => none
        | some tgt => some (tgt.pTargetBase, parseProcName sym)

/-- The module and request reached after `k` forwarder hops, when the chain
starting at `p` has at least `k` hops. -/
def forwardChain (images : List ImageContext) : Nat → Nat × ProcRequest → Option (Nat × ProcRequest)
  | 0, p => some p
  | k + 1, p =>
    match forwardStep images p with
    | none => none
    | some q => forwardChain images k q

/-! ## Example modules used to instantiate the theorems on concrete inputs -/

/-- A tracked context with the given base, file name and export directory. -/
def exampleContext (base : Nat) (fileName : String) (exports : List ExportEntry) :
    ImageContext :=
  { ImageContext.ImageContext with
    ImagePE := { exports := exports }
    pTargetBase := base
    FilePath := fileName
    FileName := fileName }

/-- A mapper tracking the given contexts. -/
def exampleMapper (images : List ImageContext) : CDarkMMap :=
  { m_Images := images, m_TargetProcess := {}, m_tlsIndex := 0, m_pAContext := 0 }

/-- A module whose export with ordinal 5 is named "five" and which has another
export, with ordinal 7, that is literally named "5". -/
def exampleNumericName : CDarkMMap :=
  exampleMapper [exampleContext 0x10000 "num.dll"
    [⟨5, some "five", .addr 0x100⟩, ⟨7, some "5", .addr 0x200⟩]]

/-- Two modules whose exports forward to each other, and a third whose export
forwards to a module that is not tracked. -/
def exampleCycle : CDarkMMap :=
  exampleMapper
    [exampleContext 0x10000 "a.dll" [⟨1, some "f", .forwarder "b.dll" "g"⟩],
     exampleContext 0x20000 "b.dll" [⟨1, some "g", .forwarder "a.dll" "f"⟩],
     exampleContext 0x30000 "c.dll" [⟨1, some "h", .forwarder "missing.dll" "k"⟩]]

/-- Three modules: "a.dll" forwards to "b.dll", which forwards to "c.dll",
which holds the code. -/
def exampleChain : CDarkMMap :=
  exampleMapper
    [exampleContext 0x10000 "a.dll" [⟨1, some "f", .forwarder "b.dll" "g"⟩],
     exampleContext 0x20000 "b.dll" [⟨1, some "g", .forwarder "c.dll" "h"⟩],
     exampleContext 0x30000 "c.dll" [⟨1, some "h", .addr 0x40⟩]]

/-! ## Error kinds (specification section 7) -/

/-- The error kinds a mapping attempt can report. -/
inductive MapError where
  | FileOpenError
  | ImageFormatError
  | ImageArchitectureMismatch
  | UnsupportedImageError
  | AllocationError
  | RelocationError
  | ImportResolutionError
  | TLSAllocationError
  | ActivationContextError
  | RemoteCallError
  deriving DecidableEq

/-! ## Relocation (`RelocateImage`, specification section 4.2)

The image in the target process is a list of bytes; a patched value is stored
little-endian, as on the architectures the loader supports. -/

/-- The `w`-byte little-endian value stored at offset `off`. -/
def readLE (img : List Nat) (off : Nat) : Nat → Nat
  | 0 => 0
  | w + 1 => img.getD off 0 + 256 * readLE img (off + 1) w

/-- Store the low `w` bytes of `v` little-endian at offset `off`. -/
def writeLE (img : List Nat) (off : Nat) : Nat → Nat → List Nat
  | 0, _ => img
  | w + 1, v => writeLE (img.set off (v % 256)) (off + 1) w (v / 256)

/-- The value `value + delta` in an entry of `width` bytes. -/
def addDelta (width : Nat) (value : Nat) (delta : Int) : Nat :=
  (((value : Int) + delta) % (2 ^ (8 * width) : Int)).toNat

/-- Modelled from the spec: part of `RelocateImage`, whose body is not in the
header; one entry of the relocation walk.  "Apply delta to
the value at the specified offset according to the entry's type (absolute
32/64-bit patch, or a no-op marker used for alignment); bounds-check every
patch location against the mapped image extent, failing with RelocationError
otherwise." -/
def applyReloc (img : List Nat) (delta : Int) (e : RelocEntry) : Except MapError (List Nat) :=
  match e.kind with
  | .noop => .ok img
  | k =>
    if e.offset + k.width ≤ img.length then
      .ok (writeLE img e.offset k.width (addDelta k.width (readLE img e.offset k.width) delta))
    else
      .error .RelocationError

/-- Modelled from the spec: part of `RelocateImage`, whose body is not in the
header; the walk of the base-relocation directory, entry by entry, each entry
applied once. -/
def applyRelocs (img : List Nat) (delta : Int) : List RelocEntry → Except MapError (List Nat)
  | [] => .ok img
  | e :: es =>
    match applyReloc img delta e with
    | .ok img' => applyRelocs img' delta es
    | .error err => .error err

/-- Modelled from the spec: `RelocateImage`, declared in the header ("Fix
relocations if image wasn't loaded at base address") without its body.
`img` is the copy of the image at `ctx.pTargetBase`; "if destination base ≠
preferred base, apply relocation; skip otherwise", with
"delta = destination base − preferred base". -/
def RelocateImage (ctx : ImageContext) (img : List Nat) : Except MapError (List Nat) :=
  if ctx.pTargetBase = ctx.ImagePE.ImageBase then .ok img
  else applyRelocs img ((ctx.pTargetBase : Int) - (ctx.ImagePE.ImageBase : Int)) ctx.ImagePE.relocs

/-- The byte ranges two entries patch do not intersect (an entry that patches
nothing meets no other entry). -/
def RelocEntry.disjoint (a b : RelocEntry) : Prop :=
  a.kind.width = 0 ∨ b.kind.width = 0 ∨
    a.offset + a.kind.width ≤ b.offset ∨ b.offset + b.kind.width ≤ a.offset

instance (a b : RelocEntry) : Decidable (a.disjoint b) := by
  unfold RelocEntry.disjoint
  exact inferInstance

/-- A context for an image of preferred base `preferred` placed at `base`,
with the given relocation directory. -/
def exampleRelocContext (preferred base : Nat) (relocs : List RelocEntry) : ImageContext :=
  { ImageContext.ImageContext with
    ImagePE := { ImageBase := preferred, relocs := relocs }
    pTargetBase := base }

/-! ## The surroundings of the mapper

The file projection, the PE parser and the process primitives are
collaborators declared in other headers.  What they answer is a parameter of
the model. -/

/-- The answers of the collaborators. -/
structure Environment where
  /-- The projection of the file at a path, when the file can be opened. -/
  openFile : String → Option CFileProjection
  /-- The parsed structure of a projected file, when it is well formed. -/
  parse : CFileProjection → Option CPEManger
  /-- Whether the target process is a 64-bit process. -/
  targetIs64 : Bool
  /-- Remote allocation: the base of a new region for an image of the given
  preferred base and size, when one can be had. -/
  allocate : CProcess → Nat → Nat → Option Nat
  /-- Whether the native loader has a module of this name in the target. -/
  systemModule : String → Bool
  /-- Address of an export of a natively loaded module, null when absent. -/
  systemExport : String → String → Nat
  /-- The file of the module an import descriptor names. -/
  modulePath : String → String
  /-- Whether a static TLS index can be issued after the given one. -/
  tlsAvailable : Int → Bool
  /-- The activation context built from the manifest resource `id` of the
  image at a path, when it can be built. -/
  createActx : String → Nat → Option Nat
  /-- Whether a remote call completes normally. -/
  remoteCall : CProcess → RemoteOp → Bool
  /-- The configured maximum forwarding depth of export resolution. -/
  maxForwardDepth : Nat

/-- The `dwReason` values of the Windows loader. -/
def DLL_PROCESS_ATTACH : Nat := 1

/-- The `dwReason` of a detach. -/
def DLL_PROCESS_DETACH : Nat := 0

/-- Whether a flags value has the bit of an enumerator. -/
def hasFlag (flags : Nat) (f : eLoadFlags) : Bool :=
  flags &&& f.val != 0

/-- The file name derived from a path: what follows the last separator. -/
def fileNameOf (path : String) : String :=
  String.mk (path.data.reverse.takeWhile (fun c => c != '\\' && c != '/')).reverse

/-- The bytes of the region allocated at `base`. -/
def CProcess.read (p : CProcess) (base : Nat) : List Nat :=
  match p.memory.find? (fun r => r.1 == base) with
  | some r => r.2
  | none => []

/-- Replace the bytes of the region allocated at `base`. -/
def CProcess.write (p : CProcess) (base : Nat) (bytes : List Nat) : CProcess :=
  { p with memory := p.memory.map (fun r => if r.1 == base then (base, bytes) else r) }

/-- Release the region allocated at `base`. -/
def CProcess.free (p : CProcess) (base : Nat) : CProcess :=
  { p with
    memory := p.memory.filter (fun r => r.1 != base)
    history := p.history ++ [.freeMemory base] }

/-! ## Steps of the pipeline

A step takes the mapper's state and yields a result or an error kind together
with the state it leaves. -/

/-- A step of the mapping pipeline. -/
def Step (α : Type) : Type := CDarkMMap → Except MapError α × CDarkMMap

/-- The step that does nothing. -/
def Step.done {α : Type} (a : α) : Step α := fun s => (.ok a, s)

/-- One step after another; an error ends the sequence. -/
def Step.andThen {α β : Type} (x : Step α) (f : α → Step β) : Step β := fun s =>
  match x s with
  | (.ok a, s1) => f a s1
  | (.error e, s1) => (.error e, s1)

/-- The step that fails. -/
def Step.fail {α : Type} (e : MapError) : Step α := fun s => (.error e, s)

instance : Monad Step where
  pure := Step.done
  bind := Step.andThen

/-- Record an operation on the target process. -/
def CDarkMMap.log (s : CDarkMMap) (op : RemoteOp) : CDarkMMap :=
  { s with m_TargetProcess :=
      { s.m_TargetProcess with history := s.m_TargetProcess.history ++ [op] } }

/-- An operation on the target process that cannot fail. -/
def Step.perform (op : RemoteOp) : Step Unit := fun s => (.ok (), s.log op)

/-- A call executed in the target process: "returns failure on ... abnormal
termination of the target thread". -/
def Step.remoteCall (env : Environment) (op : RemoteOp) : Step Unit := fun s =>
  if env.remoteCall s.m_TargetProcess op then (.ok (), s.log op)
  else (.error .RemoteCallError, s.log op)

/-- Modelled from the spec: steps 1 and 2 of `MapDll`, whose body is not in the
header; open, project and parse
the file, reject an image of the wrong architecture, reject a pure managed
image (`MapPureManaged`: "Not supported yet"). -/
def loadImage (env : Environment) (path : String) (flags : Nat) : Step ImageContext := fun s =>
  match env.openFile path with
  | none => (.error .FileOpenError, s)
  | some img =>
    match env.parse img with
    | none => (.error .ImageFormatError, s)
    | some pe =>
      if pe.Is64Bit != env.targetIs64 then (.error .ImageArchitectureMismatch, s)
      else if pe.IsPureManaged then (.error .UnsupportedImageError, s)
      else
        (.ok { ImageContext.ImageContext with
                Image := img, ImagePE := pe, flags := flags,
                FilePath := path, FileName := fileNameOf path }, s)

/-- Modelled from the spec: step 3 of `MapDll`, whose body is not in the header;
allocate the destination region, "sized to
the image's virtual size, preferring the image's declared preferred base". -/
def allocateImage (env : Environment) (ctx : ImageContext) : Step ImageContext := fun s =>
  match env.allocate s.m_TargetProcess ctx.ImagePE.ImageBase ctx.ImagePE.ImageSize with
  | none => (.error .AllocationError, s)
  | some base =>
    (.ok { ctx with pTargetBase := base },
      { s with m_TargetProcess :=
          { s.m_TargetProcess with
            memory := (base, List.replicate ctx.ImagePE.ImageSize 0) :: s.m_TargetProcess.memory } })

/-- Store a run of bytes at an offset. -/
def writeBytes (img : List Nat) (off : Nat) : List Nat → List Nat
  | [] => img
  | b :: bs => writeBytes (img.set off b) (off + 1) bs

/-- Store every section's raw bytes at its virtual offset. -/
def copySections (img : List Nat) : List Section → List Nat
  | [] => img
  | sec :: rest =>
    copySections (writeBytes img sec.VirtualAddress (sec.rawData.take sec.VirtualSize)) rest

/-- Modelled from the spec: step 4, `CopyImage` (declared without body), "copy the header and every
section's raw bytes to their virtual offsets in the destination; zero-fill any
region whose virtual size exceeds its raw size". -/
def CopyImage (ctx : ImageContext) : Step Unit := fun s =>
  let zeros := List.replicate ctx.ImagePE.ImageSize 0
  let img := copySections (writeBytes zeros 0 ctx.ImagePE.headers) ctx.ImagePE.sections
  (.ok (), { s with m_TargetProcess := s.m_TargetProcess.write ctx.pTargetBase img })

/-- Modelled from the spec: step 5, `RelocateImage` applied to the copy of the
image in the target process. -/
def relocateStep (ctx : ImageContext) : Step Unit := fun s =>
  match RelocateImage ctx (s.m_TargetProcess.read ctx.pTargetBase) with
  | .ok img => (.ok (), { s with m_TargetProcess := s.m_TargetProcess.write ctx.pTargetBase img })
  | .error e => (.error e, s)

/-- Modelled from the spec: step 6, `ProtectImageMemory` (declared without body). -/
def ProtectImageMemory (ctx : ImageContext) : Step Unit :=
  Step.perform (.protectMemory ctx.pTargetBase)

/-- Whether a module is present: tracked by the mapper or loaded natively. -/
def modulePresent (env : Environment) (s : CDarkMMap) (name : String) : Bool :=
  (findModule s.m_Images name).isSome || env.systemModule name

/-- Modelled from the spec: step 7 of `MapDll`, whose body is not in the header;
with manual import mapping, "recursively
map any referenced module not yet present (creating further ImageContext
entries) before patching".  `mapOne` maps one module given its path. -/
def mapDependencies (env : Environment) (mapOne : String → Step Nat) :
    List ImportDesc → Step Unit
  | [] => Step.done ()
  | d :: ds => fun s =>
    if modulePresent env s d.module then mapDependencies env mapOne ds s
    else
      match mapOne (env.modulePath d.module) s with
      | (.ok _, s1) => mapDependencies env mapOne ds s1
      | (.error e, s1) => (.error e, s1)

/-- The address an imported symbol resolves to: an export of a tracked
dependency context, or of a natively loaded module. -/
def importAddress (env : Environment) (s : CDarkMMap) (module sym : String) : Nat :=
  match findModule s.m_Images module with
  | some dep => GetProcAddressEx env.maxForwardDepth s dep.pTargetBase sym
  | none => if env.systemModule module then env.systemExport module sym else NULL

/-- Whether every module and symbol of the descriptors resolves. -/
def importsResolve (env : Environment) (s : CDarkMMap) (descs : List ImportDesc) : Bool :=
  descs.all (fun d =>
    modulePresent env s d.module &&
      d.symbols.all (fun sym => importAddress env s d.module sym != NULL))

/-- Modelled from the spec: step 8, `ResolveImport` (declared without body), "a missing module or
symbol fails with ImportResolutionError". -/
def ResolveImport (env : Environment) (ctx : ImageContext) : Step Unit := fun s =>
  if importsResolve env s ctx.ImagePE.imports then (.ok (), s.log (.writeImports ctx.pTargetBase))
  else (.error .ImportResolutionError, s)

/-- Modelled from the spec: step 8, `ResolveDelayImport` (declared without body), "mirrors this" for
the delay-import directory. -/
def ResolveDelayImport (env : Environment) (ctx : ImageContext) : Step Unit := fun s =>
  if importsResolve env s ctx.ImagePE.delayImports then
    (.ok (), s.log (.writeImports ctx.pTargetBase))
  else (.error .ImportResolutionError, s)

/-- Modelled from the spec: step 9, `InitStaticTLS` (declared without body), issue the next TLS index
and record the image's callback list. -/
def InitStaticTLS (env : Environment) (ctx : ImageContext) : Step ImageContext := fun s =>
  if env.tlsAvailable s.m_tlsIndex then
    (.ok { ctx with tlsCallbacks := ctx.ImagePE.tlsCallbacks.map (fun rva => ctx.pTargetBase + rva) },
      { s with m_tlsIndex := s.m_tlsIndex + 1 })
  else (.error .TLSAllocationError, s)

/-- Modelled from the spec: step 10, `CreateActx(int id = 2)` (declared without
body), which builds the activation context and stores it in `m_pAContext`. -/
def CreateActx (env : Environment) (ctx : ImageContext) (id : Nat) : Step Unit := fun s =>
  match env.createActx ctx.FilePath id with
  | none => (.error .ActivationContextError, s)
  | some hActx => (.ok (), { s with m_pAContext := hActx })

/-- Modelled from the spec: `FreeActx` (declared without body), "Free existing activation context, if
any". -/
def FreeActx : Step Unit := fun s =>
  if s.m_pAContext = NULL then (.ok (), s)
  else (.ok (), { (s.log (.releaseActx s.m_pAContext)) with m_pAContext := NULL })

/-- Modelled from the spec: step 11, `InitializeCookie` (declared without body). -/
def InitializeCookie (ctx : ImageContext) : Step Unit :=
  Step.perform (.writeCookie ctx.pTargetBase)

/-- Modelled from the spec: step 12, `RunTLSInitializers(dwReason)` (declared
without body), each
callback of the context, in order, as a remote call. -/
def RunTLSInitializers (env : Environment) (ctx : ImageContext) (dwReason : Nat) :
    List Nat → Step Unit
  | [] => Step.done ()
  | cb :: cbs =>
    Step.andThen (Step.remoteCall env (.callTlsCallback cb ctx.pTargetBase dwReason))
      (fun _ => RunTLSInitializers env ctx dwReason cbs)

/-- Modelled from the spec: step 13, `EnableExceptions` (declared without body), full support, or the
table only with `PartialExcept`. -/
def EnableExceptions (ctx : ImageContext) : Step Unit :=
  Step.perform (.enableExceptions ctx.pTargetBase (!hasFlag ctx.flags .PartialExcept))

/-- Modelled from the spec: `DisableExceptions` (declared without body). -/
def DisableExceptions (ctx : ImageContext) : Step Unit :=
  Step.perform (.disableExceptions ctx.pTargetBase)

/-- Modelled from the spec: step 15, `CallEntryPoint(dwReason)` (declared without
body), a remote call
of the entry point, when the image has one. -/
def CallEntryPoint (env : Environment) (ctx : ImageContext) (dwReason : Nat) : Step Unit :=
  if ctx.EntryPoint = NULL then Step.done ()
  else Step.remoteCall env (.callEntryPoint ctx.EntryPoint ctx.pTargetBase dwReason)

/-- The entry point of the image at its target base, null when the image has
none. -/
def entryPointOf (ctx : ImageContext) : Nat :=
  if ctx.ImagePE.entryPoint = 0 then NULL else ctx.pTargetBase + ctx.ImagePE.entryPoint

/-- A step taken only under a condition. -/
def Step.when (c : Bool) (x : Step Unit) : Step Unit :=
  if c then x else Step.done ()

/-- Modelled from the spec: steps 4 to 15 of `MapDll`, whose body is not in the
header, for a context whose
destination region has been allocated. -/
def mapSteps (env : Environment) (mapOne : String → Step Nat) (ctx : ImageContext) :
    Step ImageContext := do
  CopyImage ctx
  relocateStep ctx
  ProtectImageMemory ctx
  Step.when (hasFlag ctx.flags .ManualImports)
    (mapDependencies env mapOne ctx.ImagePE.imports)
  ResolveImport env ctx
  Step.when (!hasFlag ctx.flags .NoDelayLoad) (ResolveDelayImport env ctx)
  let ctx1 ← (if hasFlag ctx.flags .NoTLS then Step.done ctx else InitStaticTLS env ctx)
  Step.when (!hasFlag ctx.flags .NoSxS) (CreateActx env ctx1 2)
  InitializeCookie ctx1
  Step.when (!hasFlag ctx.flags .NoTLS)
    (RunTLSInitializers env ctx1 DLL_PROCESS_ATTACH ctx1.tlsCallbacks)
  Step.when (!hasFlag ctx.flags .NoExceptions) (EnableExceptions ctx1)
  Step.when (hasFlag ctx.flags .CreateLdrRef) (Step.perform (.createLdrRef ctx1.pTargetBase))
  CallEntryPoint env { ctx1 with EntryPoint := entryPointOf ctx1 } DLL_PROCESS_ATTACH
  Step.when (ctx.ImagePE.IsExe && hasFlag ctx.flags .RebaseProcess)
    (Step.perform (.setImageBase ctx1.pTargetBase))
  Step.done { ctx1 with EntryPoint := entryPointOf ctx1 }

/-- Modelled from the spec: part of `MapDll`, whose body is not in the header;
the unwinding of a failed context, "release its remote
memory and local file mapping" (the local mapping goes with the context). -/
def releaseImage (ctx : ImageContext) (s : CDarkMMap) : CDarkMMap :=
  { s with m_TargetProcess := s.m_TargetProcess.free ctx.pTargetBase }

/-- Modelled from the spec: `MapDll(path, flags)`, declared in the header
without its body.  The context is "created at the start of a mapping attempt
and is either fully promoted into the tracked sequence on pipeline success, or
entirely discarded on failure"; the result is the destination base.  The first
argument bounds how deep dependency mapping may nest; a dependency beyond the
bound is not mapped and the import fails. -/
def MapDll (env : Environment) : Nat → String → Nat → Step Nat
  | 0, _, _ => Step.fail .ImportResolutionError
  | depth + 1, path, flags => fun s =>
    match loadImage env path flags s with
    | (.error e, s1) => (.error e, s1)
    | (.ok ctx0, s1) =>
      match allocateImage env ctx0 s1 with
      | (.error e, s2) => (.error e, s2)
      | (.ok ctx, s2) =>
        match mapSteps env (fun p => MapDll env depth p flags) ctx s2 with
        | (.error e, s3) => (.error e, releaseImage ctx s3)
        | (.ok ctx', s3) =>
          (.ok ctx'.pTargetBase, { s3 with m_Images := s3.m_Images ++ [ctx'] })

/-! ## Unmapping (`UnmapAllModules`, specification section 4.1) -/

/-- Run a teardown step, keeping its failure, if any, and going on. -/
def attempt (x : Step Unit) (acc : List MapError × CDarkMMap) : List MapError × CDarkMMap :=
  match x acc.2 with
  | (.ok _, s) => (acc.1, s)
  | (.error e, s) => (acc.1 ++ [e], s)

/-- Run the TLS callbacks of a context for a detach, each one attempted. -/
def detachTls (env : Environment) (ctx : ImageContext) :
    List Nat → List MapError × CDarkMMap → List MapError × CDarkMMap
  | [], acc => acc
  | cb :: cbs, acc =>
    detachTls env ctx cbs
      (attempt (Step.remoteCall env (.callTlsCallback cb ctx.pTargetBase DLL_PROCESS_DETACH)) acc)

/-- Modelled from the spec: part of `UnmapAllModules`, whose body is not in the
header; the teardown of one tracked context, "invoke entry
point and TLS callbacks with a process-detach event, remove exception-support
registration, release the activation context, release target-process memory,
release the local file mapping"; a failure does not stop the teardown. -/
def unmapImage (env : Environment) (ctx : ImageContext)
    (acc : List MapError × CDarkMMap) : List MapError × CDarkMMap :=
  let a1 := attempt (CallEntryPoint env ctx DLL_PROCESS_DETACH) acc
  let a2 := detachTls env ctx ctx.tlsCallbacks a1
  let a3 := attempt (DisableExceptions ctx) a2
  let a4 := attempt FreeActx a3
  (a4.1, releaseImage ctx a4.2)

/-- Modelled from the spec: `UnmapAllModules()`, declared in the header without
its body.  "For each tracked context in reverse insertion order" the context
is torn down; then the tracked sequence is cleared.  The result is whether no
teardown failure was met. -/
def UnmapAllModules (env : Environment) (s : CDarkMMap) : Bool × CDarkMMap :=
  let r := s.m_Images.reverse.foldl (fun acc ctx => unmapImage env ctx acc) ([], s)
  (r.1.isEmpty, { r.2 with m_Images := [] })

/-- The operations the teardown of one context performs on the target
process, given the activation context held at that time. -/
def teardownOps (hActx : Nat) (ctx : ImageContext) : List RemoteOp :=
  (if ctx.EntryPoint = NULL then []
    else [.callEntryPoint ctx.EntryPoint ctx.pTargetBase DLL_PROCESS_DETACH]) ++
  ctx.tlsCallbacks.map (fun cb => .callTlsCallback cb ctx.pTargetBase DLL_PROCESS_DETACH) ++
  [.disableExceptions ctx.pTargetBase] ++
  (if hActx = NULL then [] else [.releaseActx hActx]) ++
  [.freeMemory ctx.pTargetBase]

/-- The operations of tearing down a sequence of contexts, first to last. -/
def teardownSequence (hActx : Nat) : List ImageContext → List RemoteOp
  | [] => []
  | ctx :: rest => teardownOps hActx ctx ++ teardownSequence NULL rest

/-- The bases of the regions released by a list of operations, in order. -/
def releasedBases (ops : List RemoteOp) : List Nat :=
  ops.filterMap (fun op => match op with
    | .freeMemory base => some base
    | _ => none)

/-- The files of the example environment: a module with code, a module that
imports from it, and a module that imports a symbol the first does not export. -/
def exampleFiles : List (String × Nat × CPEManger) :=
  [("C:\\app\\dep.dll", 1,
      { ImageBase := 0x20000, ImageSize := 8,
        exports := [⟨1, some "f", .addr 0x4⟩] }),
   ("C:\\app\\main.dll", 2,
      { ImageBase := 0x10000, ImageSize := 8, headers := [0x44, 0x33, 0x22, 0x11],
        relocs := [⟨.abs32, 0⟩], imports := [⟨"dep.dll", ["f"]⟩],
        tlsCallbacks := [0x6], entryPoint := 0x4 }),
   ("C:\\app\\bad.dll", 3,
      { ImageBase := 0x30000, ImageSize := 8,
        imports := [⟨"dep.dll", ["g"]⟩] })]

/-- An environment in which every region is allocated away from the preferred
base and every remote operation succeeds. -/
def exampleEnv : Environment where
  openFile path :=
    match exampleFiles.find? (fun f => f.1 == path) with
    | some f => some { data := [f.2.1] }
    | none => none
  parse img :=
    match exampleFiles.find? (fun f => [f.2.1] == img.data) with
    | some f => some f.2.2
    | none => none
  targetIs64 := false
  allocate _ preferred _ := some (preferred + 0x100000)
  systemModule _ := false
  systemExport _ _ := 0
  modulePath name := "C:\\app\\" ++ name
  tlsAvailable _ := true
  createActx _ _ := some 0x7000
  remoteCall _ _ := true
  maxForwardDepth := 10

/-! ## Properties of steps used to state the theorems on `MapDll` -/

/-- A step leaves the tracked sequence as it found it. -/
def Step.Keeps {α : Type} (x : Step α) : Prop :=
  ∀ s, (x s).2.m_Images = s.m_Images

/-- A step only appends to the tracked sequence, and every context it appends
satisfies `Q`. -/
def Step.Extends {α : Type} (Q : ImageContext → Prop) (x : Step α) : Prop :=
  ∀ s, ∃ added, (x s).2.m_Images = s.m_Images ++ added ∧ ∀ c ∈ added, Q c

/-- Every result of a step satisfies `R`. -/
def Step.Returns {α : Type} (R : α → Prop) (x : Step α) : Prop :=
  ∀ s a s', x s = (.ok a, s') → R a

/-- The context was appended to the tracked sequence by a `MapDll` call that
succeeded, with a nesting bound below `depth`: it is the context of a
dependency completed by a nested call. -/
def CompletedBy (env : Environment) (depth : Nat) (c : ImageContext) : Prop :=
  ∃ n path flags s0 h s1, n < depth ∧
    MapDll env n path flags s0 = (.ok h, s1) ∧
    s1.m_Images.getLast? = some c ∧ c.pTargetBase = h ∧ c.FilePath = path

/-- What is observed of a `MapDll` call: the handle it returns, if any, and
the file names and target bases of the tracked contexts afterwards. -/
def observe (r : Except MapError Nat × CDarkMMap) : Option Nat × List (String × Nat) :=
  (match r.1 with
    | .ok h => some h
    | .error _ => none,
   r.2.m_Images.map (fun c => (c.FileName, c.pTargetBase)))

/-! ## The call chain of a `MapDll` call

A `MapDll` call maps dependencies through nested `MapDll` calls.  The
following relations say which nested calls a call makes, so that a theorem can
speak of what each of them left in the tracked sequence. -/

/-- A call of `MapDll`: its nesting bound, path and flags, and the state of
the mapper in which it starts. -/
structure MapCall where
  depth : Nat
  path  : String
  flags : Nat
  state : CDarkMMap

/-- The outcome of a call: its result and the state it leaves. -/
def MapCall.run (env : Environment) (c : MapCall) : Except MapError Nat × CDarkMMap :=
  MapDll env c.depth c.path c.flags c.state

/-- While the dependencies `descs` are mapped starting in state `s`, `mapOne`
is called for the path `p` in state `s0`.  A module that is present is passed
over; a module that is not present is mapped, and the walk goes on from the
state that call left when it succeeded. -/
inductive DependencyCall (env : Environment) (mapOne : String → Step Nat) :
    List ImportDesc → CDarkMMap → String → CDarkMMap → Prop
  | here {d : ImportDesc} {ds : List ImportDesc} {s : CDarkMMap} :
      modulePresent env s d.module = false →
      DependencyCall env mapOne (d :: ds) s (env.modulePath d.module) s
  | skip {d : ImportDesc} {ds : List ImportDesc} {s : CDarkMMap} {p : String} {s0 : CDarkMMap} :
      modulePresent env s d.module = true →
      DependencyCall env mapOne ds s p s0 →
      DependencyCall env mapOne (d :: ds) s p s0
  | next {d : ImportDesc} {ds : List ImportDesc} {s : CDarkMMap} {h : Nat} {s1 : CDarkMMap}
      {p : String} {s0 : CDarkMMap} :
      modulePresent env s d.module = false →
      mapOne (env.modulePath d.module) s = (.ok h, s1) →
      DependencyCall env mapOne ds s1 p s0 →
      DependencyCall env mapOne (d :: ds) s p s0

/-- The call `inner` is made by the call `outer` itself: `outer` loaded and
placed its image (steps 1 to 6), manual import mapping is on, and `inner` is
one of the calls of its dependency step (step 7), with the same flags and a
nesting bound one lower. -/
def DirectCall (env : Environment) (outer inner : MapCall) : Prop :=
  ∃ depth ctx0 s1 ctx s2 sa sb s3,
    outer.depth = depth + 1 ∧
    loadImage env outer.path outer.flags outer.state = (.ok ctx0, s1) ∧
    allocateImage env ctx0 s1 = (.ok ctx, s2) ∧
    CopyImage ctx s2 = (.ok (), sa) ∧
    relocateStep ctx sa = (.ok (), sb) ∧
    ProtectImageMemory ctx sb = (.ok (), s3) ∧
    hasFlag ctx.flags .ManualImports = true ∧
    inner.depth = depth ∧ inner.flags = outer.flags ∧
    DependencyCall env (fun p => MapDll env depth p outer.flags) ctx.ImagePE.imports s3
      inner.path inner.state

/-- The call `inner` belongs to the call chain of `outer`: it is made by
`outer`, or by a call that `outer` makes, and so on. -/
def InCallChain (env : Environment) (outer inner : MapCall) : Prop :=
  Relation.TransGen (DirectCall env) outer inner

/-- The context of "bad.dll" of the example environment once loaded. -/
def exampleBadLoaded : ImageContext :=
  { ImageContext.ImageContext with
    Image := { data := [3] }
    ImagePE := { ImageBase := 0x30000, ImageSize := 8, imports := [⟨"dep.dll", ["g"]⟩] }
    flags := eLoadFlags.ManualImports.val
    FilePath := "C:\\app\\bad.dll"
    FileName := "bad.dll" }

/-- The context of "bad.dll" once its destination region is allocated. -/
def exampleBadPlaced : ImageContext :=
  { exampleBadLoaded with pTargetBase := 0x130000 }

/-- The mapper once the region of "bad.dll" is allocated; copying and
relocating leave the zero bytes as they are. -/
def exampleAllocated : CDarkMMap :=
  { m_Images := []
    m_TargetProcess := { memory := [(0x130000, [0, 0, 0, 0, 0, 0, 0, 0])] }
    m_tlsIndex := 0
    m_pAContext := 0 }

/-- The mapper when the dependency step of "bad.dll" starts. -/
def examplePlaced : CDarkMMap :=
  exampleAllocated.log (.protectMemory 0x130000)

end ds_mmap

/-! # Theorems -/

namespace ds_mmap

theorem or_eq_zero_left {a b : Nat} (h : a ||| b = 0) : a = 0 := by
  apply Nat.eq_of_testBit_eq
  intro i
  have := congrArg (fun n => Nat.testBit n i) h
  simp only [Nat.testBit_or, Nat.zero_testBit, Bool.or_eq_false_iff] at this
  simp [this.1]

theorem or_eq_zero_right {a b : Nat} (h : a ||| b = 0) : b = 0 := by
  apply Nat.eq_of_testBit_eq
  intro i
  have := congrArg (fun n => Nat.testBit n i) h
  simp only [Nat.testBit_or, Nat.zero_testBit, Bool.or_eq_false_iff] at this
  simp [this.2]

theorem flagsOr_empty : flagsOr ∅ = 0 := by
  simp [flagsOr]

theorem flagsOr_insert {f : eLoadFlags} {S : Finset eLoadFlags} (h : f ∉ S) :
    flagsOr (insert f S) = f.val ||| flagsOr S := by
  simp [flagsOr, Finset.fold_insert h]

/-- A mask that clears every member of a flag set clears the set's value. -/
theorem flagsOr_and_eq_zero (m : Nat) (S : Finset eLoadFlags)
    (h : ∀ f ∈ S, f.val &&& m = 0) : flagsOr S &&& m = 0 := by
  induction S using Finset.induction_on with
  | empty => simp [flagsOr_empty]
  | insert hn ih =>
    rw [flagsOr_insert hn, Nat.and_distrib_right, h _ (Finset.mem_insert_self _ _),
      ih (fun f hf => h f (Finset.mem_insert_of_mem hf))]
    rfl

/-- A mask that keeps every member of a flag set keeps the set's value. -/
theorem flagsOr_and_eq_self (m : Nat) (S : Finset eLoadFlags)
    (h : ∀ f ∈ S, f.val &&& m = f.val) : flagsOr S &&& m = flagsOr S := by
  induction S using Finset.induction_on with
  | empty => simp [flagsOr_empty]
  | insert hn ih =>
    rw [flagsOr_insert hn, Nat.and_distrib_right, h _ (Finset.mem_insert_self _ _),
      ih (fun f hf => h f (Finset.mem_insert_of_mem hf))]

theorem behaviour_mask (f : eLoadFlags) (h : f.isBehaviour = true) :
    f.val &&& 0xFFF = f.val ∧ f.val &&& complement32 0xFFF = 0 := by
  cases f <;> first | exact absurd h (by decide) | decide

theorem runtime_mask (f : eLoadFlags) (h : f.isRuntime = true) :
    f.val &&& 0xFFF = 0 ∧ f.val &&& complement32 0xFFF = f.val := by
  cases f <;> first | exact absurd h (by decide) | decide

/-- Two enumerators other than `NoFlags` share a bit only when they are equal. -/
theorem val_and_val (f g : eLoadFlags) (hf : f ≠ .NoFlags) :
    g.val &&& f.val ≠ 0 ↔ g = f := by
  cases f <;> cases g <;> first | exact absurd rfl hf | decide

/-- Membership test by masking: a flag other than `NoFlags` is in the set
exactly when the set's value has the flag's bit. -/
theorem mem_iff_flagsOr_and (S : Finset eLoadFlags) (f : eLoadFlags) (hf : f ≠ .NoFlags) :
    f ∈ S ↔ flagsOr S &&& f.val ≠ 0 := by
  induction S using Finset.induction_on with
  | empty => simp [flagsOr_empty]
  | @insert g S hn ih =>
    rw [flagsOr_insert hn, Nat.and_distrib_right, Finset.mem_insert, ih]
    have hv := val_and_val f g hf
    constructor
    · rintro (rfl | h) hz
      · exact (hv.mpr rfl) (or_eq_zero_left hz)
      · exact h (or_eq_zero_right hz)
    · intro h
      by_cases hg : g.val &&& f.val = 0
      · right
        intro hz
        exact h (by rw [hg, hz]; rfl)
      · left
        exact (hv.mp hg).symm

/-! ## The loader flags -/

/-- C8: the load flags use a two-range encoding with no overlap between the
groups.  Every mapping-behaviour flag is below 0x1000 and every runtime flag is
at or above 0x1000; for every combination B of behaviour flags and every
combination R of runtime flags, B AND R = 0, and B and R are recovered from
B OR R by masking with 0xFFF and with its complement. -/
theorem C8_two_range_encoding (S T : Finset eLoadFlags)
    (hS : ∀ f ∈ S, f.isBehaviour = true) (hT : ∀ f ∈ T, f.isRuntime = true) :
    (∀ f : eLoadFlags, f.isBehaviour = true → f.val < 0x1000) ∧
    (∀ f : eLoadFlags, f.isRuntime = true → 0x1000 ≤ f.val) ∧
    flagsOr S &&& flagsOr T = 0 ∧
    (flagsOr S ||| flagsOr T) &&& 0xFFF = flagsOr S ∧
    (flagsOr S ||| flagsOr T) &&& complement32 0xFFF = flagsOr T := by
  have hB1 : flagsOr S &&& 0xFFF = flagsOr S :=
    flagsOr_and_eq_self _ S (fun f hf => (behaviour_mask f (hS f hf)).1)
  have hB2 : flagsOr S &&& complement32 0xFFF = 0 :=
    flagsOr_and_eq_zero _ S (fun f hf => (behaviour_mask f (hS f hf)).2)
  have hR1 : flagsOr T &&& 0xFFF = 0 :=
    flagsOr_and_eq_zero _ T (fun f hf => (runtime_mask f (hT f hf)).1)
  have hR2 : flagsOr T &&& complement32 0xFFF = flagsOr T :=
    flagsOr_and_eq_self _ T (fun f hf => (runtime_mask f (hT f hf)).2)
  refine ⟨?_, ?_, ?_, ?_, ?_⟩
  · intro f hf
    cases f <;> first | exact absurd hf (by decide) | decide
  · intro f hf
    cases f <;> first | exact absurd hf (by decide) | decide
  · rw [← hB1, Nat.and_assoc, Nat.and_comm 0xFFF, hR1]
    exact Nat.and_zero _
  · rw [Nat.and_distrib_right, hB1, hR1]
    exact Nat.or_zero _
  · rw [Nat.and_distrib_right, hB2, hR2]
    exact Nat.zero_or _

/-- C8 at a concrete input: B = ManualImports | UnlinkVAD, R = NoTLS. -/
theorem C8_two_range_encoding_witness :
    flagsOr {.ManualImports, .UnlinkVAD} &&& flagsOr {.NoTLS} = 0 ∧
    (flagsOr {.ManualImports, .UnlinkVAD} ||| flagsOr {.NoTLS}) &&& 0xFFF
      = flagsOr {.ManualImports, .UnlinkVAD} ∧
    (flagsOr {.ManualImports, .UnlinkVAD} ||| flagsOr {.NoTLS}) &&& complement32 0xFFF
      = flagsOr {.NoTLS} :=
  (C8_two_range_encoding {.ManualImports, .UnlinkVAD} {.NoTLS}
    (by decide) (by decide)).2.2

/-- C9: flag sets decode uniquely.  Each of the nine non-zero enumerators is a
power of two and the enumerators are pairwise distinct; for sets S and T of
the nine flags, OR(S) = OR(T) iff S = T, and a flag is in S iff OR(S) AND the
flag is non-zero; NoFlags is 0, the OR of the empty set, and the default of
the flags parameter of MapDll. -/
theorem C9_flag_sets_decode_uniquely (S T : Finset eLoadFlags)
    (hS : eLoadFlags.NoFlags ∉ S) (hT : eLoadFlags.NoFlags ∉ T) :
    (∀ f : eLoadFlags, f ≠ .NoFlags → ∃ k, f.val = 2 ^ k) ∧
    (∀ f g : eLoadFlags, f.val = g.val → f = g) ∧
    (flagsOr S = flagsOr T ↔ S = T) ∧
    (∀ f : eLoadFlags, f ≠ .NoFlags → (f ∈ S ↔ flagsOr S &&& f.val ≠ 0)) ∧
    eLoadFlags.NoFlags.val = 0 ∧ flagsOr ∅ = eLoadFlags.NoFlags.val ∧
    MapDll_defaultFlags = eLoadFlags.NoFlags.val := by
  refine ⟨?_, ?_, ?_, fun f hf => mem_iff_flagsOr_and S f hf, rfl, flagsOr_empty, rfl⟩
  · intro f hf
    cases f
    · exact absurd rfl hf
    · exact ⟨0, rfl⟩
    · exact ⟨1, rfl⟩
    · exact ⟨2, rfl⟩
    · exact ⟨5, rfl⟩
    · exact ⟨12, rfl⟩
    · exact ⟨13, rfl⟩
    · exact ⟨14, rfl⟩
    · exact ⟨15, rfl⟩
    · exact ⟨16, rfl⟩
  · intro f g h
    cases f <;> cases g <;> first | rfl | exact absurd h (by decide)
  · constructor
    · intro h
      ext f
      by_cases hf : f = .NoFlags
      · subst hf
        exact ⟨fun hm => absurd hm hS, fun hm => absurd hm hT⟩
      · rw [mem_iff_flagsOr_and S f hf, mem_iff_flagsOr_and T f hf, h]
    · rintro rfl
      rfl

/-- C9 at a concrete input: the sets {CreateLdrRef, NoSxS} and {NoSxS} have
different values because they are different sets. -/
theorem C9_flag_sets_decode_uniquely_witness :
    (flagsOr {.CreateLdrRef, .NoSxS} = flagsOr {.NoSxS} ↔
      ({.CreateLdrRef, .NoSxS} : Finset eLoadFlags) = {.NoSxS}) :=
  (C9_flag_sets_decode_uniquely {.CreateLdrRef, .NoSxS} {.NoSxS}
    (by decide) (by decide)).2.2.1

/-! ## The image context -/

/-- C10: a freshly constructed ImageContext is in the empty state: flags equal
NoFlags (none of the nine options enabled), target base null, exception-table
address 0, no TLS callbacks, empty file path and file name, null entry point. -/
theorem C10_fresh_context_is_empty :
    ImageContext.ImageContext.flags = eLoadFlags.NoFlags.val ∧
    (∀ f : eLoadFlags, ImageContext.ImageContext.flags &&& f.val = 0) ∧
    ImageContext.ImageContext.pTargetBase = NULL ∧
    ImageContext.ImageContext.pExpTableAddr = 0 ∧
    ImageContext.ImageContext.tlsCallbacks = [] ∧
    ImageContext.ImageContext.FilePath = "" ∧
    ImageContext.ImageContext.FileName = "" ∧
    ImageContext.ImageContext.EntryPoint = NULL := by
  refine ⟨rfl, ?_, rfl, rfl, rfl, rfl, rfl, rfl⟩
  intro f
  cases f <;> decide

/-! ## The execution thread of `CallFunction` -/

/-- C7 fails as stated: on a 64-bit target the declared default of
`hContextThread` selects the default worker thread, not a new thread. -/
theorem C7_default_is_not_new_thread :
    executionTarget 64 (CallFunction_defaultContextThread 64) = .workerThread ∧
    executionTarget 64 (CallFunction_defaultContextThread 64) ≠ .newThread := by
  decide

/-- C7, amended: with `hContextThread` left at its declared default the call is
executed in the default worker thread; a new thread is used exactly when NULL
is passed, the worker thread exactly when INVALID_HANDLE_VALUE is passed, and
any other handle selects that existing thread. -/
theorem C7_default_is_worker_thread (ptrBits : Nat) (hw : ptrBits = 32 ∨ ptrBits = 64) :
    executionTarget ptrBits (CallFunction_defaultContextThread ptrBits) = .workerThread ∧
    (∀ h, executionTarget ptrBits h = .newThread ↔ h = NULL) ∧
    (∀ h, executionTarget ptrBits h = .workerThread ↔ h = INVALID_HANDLE_VALUE ptrBits) ∧
    (∀ h, h ≠ NULL → h ≠ INVALID_HANDLE_VALUE ptrBits →
      executionTarget ptrBits h = .existingThread h) := by
  have hne : INVALID_HANDLE_VALUE ptrBits ≠ NULL := by
    rcases hw with rfl | rfl <;> decide
  refine ⟨?_, ?_, ?_, ?_⟩
  · simp [executionTarget, CallFunction_defaultContextThread, hne]
  · intro h
    unfold executionTarget
    split_ifs with h1 h2 <;> simp [h1]
  · intro h
    unfold executionTarget
    split_ifs with h1 h2
    · simp only [false_iff, reduceCtorEq]
      rw [h1]
      exact fun e => hne e.symm
    · simp [h2]
    · simp [h2]
  · intro h h1 h2
    simp [executionTarget, h1, h2]

/-- C7 (amended) on a 32-bit target. -/
theorem C7_default_is_worker_thread_witness :
    executionTarget 32 (CallFunction_defaultContextThread 32) = .workerThread :=
  (C7_default_is_worker_thread 32 (Or.inl rfl)).1

/-! ## Export resolution -/

theorem parseProcName_five : parseProcName "5" = .ordinal 5 := by
  decide

/-- One level of `resolveExport` when the matched export is a forwarder whose
module resolves. -/
theorem resolveExport_step (images : List ImageContext) (d : Nat) (vis : List Nat)
    (p q : Nat × ProcRequest) (h : forwardStep images p = some q) :
    resolveExport images (d + 1) vis p.1 p.2 =
      if p.1 ∈ vis then NULL else resolveExport images d (p.1 :: vis) q.1 q.2 := by
  unfold forwardStep at h
  rw [resolveExport]
  split_ifs with hv
  · rfl
  · cases hc : findContext images p.1 with
    | none => simp [hc] at h
    | some ctx =>
      simp only [hc] at h ⊢
      cases he : findExport ctx.ImagePE.exports p.2 with
      | none => simp [he] at h
      | some e =>
        simp only [he] at h ⊢
        cases ht : e.target with
        | addr rva => simp [ht] at h
        | forwarder m sym =>
          simp only [ht] at h ⊢
          cases hm : findModule images m with
          | none => simp [hm] at h
          | some tgt =>
            simp only [hm, Option.some.injEq] at h ⊢
            rw [← h]

/-- Following `k` forwarder hops either yields the null address or continues
the resolution at the module reached, with `k` fewer levels left and every
module passed on the way recorded as visited. -/
theorem resolveExport_chain (images : List ImageContext) (k : Nat) :
    ∀ (d : Nat) (vis : List Nat) (p q : Nat × ProcRequest),
      forwardChain images k p = some q →
      resolveExport images d vis p.1 p.2 = NULL ∨
      ∃ d' vis', d = d' + k ∧
        resolveExport images d vis p.1 p.2 = resolveExport images d' vis' q.1 q.2 ∧
        (∀ i, i < k → ∀ qi, forwardChain images i p = some qi → qi.1 ∈ vis') ∧
        (∀ x ∈ vis, x ∈ vis') := by
  induction k with
  | zero =>
    intro d vis p q h
    simp only [forwardChain, Option.some.injEq] at h
    subst h
    exact Or.inr ⟨d, vis, rfl, rfl, fun i hi => absurd hi (Nat.not_lt_zero i), fun x hx => hx⟩
  | succ k ih =>
    intro d vis p q h
    cases d with
    | zero => left; rfl
    | succ d =>
      simp only [forwardChain] at h
      cases hs : forwardStep images p with
      | none => simp [hs] at h
      | some r =>
        simp only [hs] at h
        rw [resolveExport_step images d vis p r hs]
        split_ifs with hv
        · left; rfl
        · rcases ih d (p.1 :: vis) r q h with h0 | ⟨d', vis', hd, heq, hvis, hsub⟩
          · left; exact h0
          · right
            refine ⟨d', vis', by omega, heq, ?_, fun x hx => hsub x (List.mem_cons_of_mem _ hx)⟩
            intro i hi qi hqi
            cases i with
            | zero =>
              simp only [forwardChain, Option.some.injEq] at hqi
              subst hqi
              exact hsub _ (List.mem_cons_self _ _)
            | succ i =>
              simp only [forwardChain, hs] at hqi
              exact hvis i (by omega) qi hqi

theorem resolveExport_visited (images : List ImageContext) (d : Nat) (vis : List Nat)
    (hMod : Nat) (req : ProcRequest) (h : hMod ∈ vis) :
    resolveExport images d vis hMod req = NULL := by
  cases d with
  | zero => rfl
  | succ d => simp [resolveExport, h]

theorem findContext_eq_none (images : List ImageContext) (hMod : Nat) :
    findContext images hMod = none ↔ ∀ c ∈ images, c.pTargetBase ≠ hMod := by
  simp [findContext, List.find?_eq_none]

theorem findExport_eq_none (exports : List ExportEntry) (req : ProcRequest) :
    findExport exports req = none ↔ ∀ e ∈ exports, req.selects e = false := by
  simp [findExport, List.find?_eq_none]

theorem findModule_eq_none (images : List ImageContext) (name : String) :
    findModule images name = none ↔ ∀ c ∈ images, c.FileName ≠ name := by
  simp [findModule, List.find?_eq_none]

/-- C4: GetProcAddressEx called with the literal ordinal string "5" performs
the ordinal lookup of ordinal 5; in every module whose export directory holds
an ordinal-5 export at offset a and an export named "5" at a different offset
b, the result is the address of the ordinal-5 export and differs from the
result of the name lookup of "5". -/
theorem C4_ordinal_string_never_aliases_name (maxDepth : Nat) (s : CDarkMMap) (hMod : Nat)
    (ctx : ImageContext) (e5 eN : ExportEntry) (a b : Nat)
    (hctx : findContext s.m_Images hMod = some ctx)
    (hord : findExport ctx.ImagePE.exports (.ordinal 5) = some e5)
    (ha : e5.target = .addr a)
    (hname : findExport ctx.ImagePE.exports (.name "5") = some eN)
    (hb : eN.target = .addr b)
    (hab : a ≠ b) :
    GetProcAddressEx maxDepth s hMod "5" =
      resolveExport s.m_Images (maxDepth + 1) [] hMod (.ordinal 5) ∧
    GetProcAddressEx maxDepth s hMod "5" = hMod + a ∧
    resolveExport s.m_Images (maxDepth + 1) [] hMod (.name "5") = hMod + b ∧
    GetProcAddressEx maxDepth s hMod "5" ≠
      resolveExport s.m_Images (maxDepth + 1) [] hMod (.name "5") := by
  have h1 : GetProcAddressEx maxDepth s hMod "5" = hMod + a := by
    simp [GetProcAddressEx, parseProcName_five, resolveExport, hctx, hord, ha]
  have h2 : resolveExport s.m_Images (maxDepth + 1) [] hMod (.name "5") = hMod + b := by
    simp [resolveExport, hctx, hname, hb]
  refine ⟨by rw [GetProcAddressEx, parseProcName_five], h1, h2, ?_⟩
  rw [h1, h2]
  omega

/-- C4 at a concrete input: ordinal 5 is at offset 0x100, the export named "5"
(ordinal 7) at offset 0x200. -/
theorem C4_ordinal_string_never_aliases_name_witness :
    GetProcAddressEx 10 exampleNumericName 0x10000 "5" = 0x10000 + 0x100 ∧
    resolveExport exampleNumericName.m_Images (10 + 1) [] 0x10000 (.name "5")
      = 0x10000 + 0x200 :=
  have h := C4_ordinal_string_never_aliases_name 10 exampleNumericName 0x10000
    (exampleContext 0x10000 "num.dll" [⟨5, some "five", .addr 0x100⟩, ⟨7, some "5", .addr 0x200⟩])
    ⟨5, some "five", .addr 0x100⟩ ⟨7, some "5", .addr 0x200⟩ 0x100 0x200
    (by decide) (by decide) rfl (by decide) rfl (by decide)
  ⟨h.2.1, h.2.2.1⟩

/-- C5: GetProcAddressEx is a total function to addresses and returns the null
address in the failure cases: when no tracked context has the handle as its
target base, when no export of the owning context matches the name or ordinal,
and when a forwarder met during the resolution names a module that cannot be
resolved.  When the matched export is code, the result is its address. -/
theorem C5_null_in_failure_cases (maxDepth : Nat) (s : CDarkMMap) (hMod : Nat)
    (procName : String) :
    ((∀ c ∈ s.m_Images, c.pTargetBase ≠ hMod) →
      GetProcAddressEx maxDepth s hMod procName = NULL) ∧
    (∀ ctx, findContext s.m_Images hMod = some ctx →
      (∀ e ∈ ctx.ImagePE.exports, (parseProcName procName).selects e = false) →
      GetProcAddressEx maxDepth s hMod procName = NULL) ∧
    (∀ k q ctx e m sym,
      forwardChain s.m_Images k (hMod, parseProcName procName) = some q →
      findContext s.m_Images q.1 = some ctx →
      findExport ctx.ImagePE.exports q.2 = some e →
      e.target = .forwarder m sym →
      (∀ c ∈ s.m_Images, c.FileName ≠ m) →
      GetProcAddressEx maxDepth s hMod procName = NULL) ∧
    (∀ ctx e rva, findContext s.m_Images hMod = some ctx →
      findExport ctx.ImagePE.exports (parseProcName procName) = some e →
      e.target = .addr rva →
      GetProcAddressEx maxDepth s hMod procName = hMod + rva) := by
  refine ⟨?_, ?_, ?_, ?_⟩
  · intro h
    have hc := (findContext_eq_none s.m_Images hMod).mpr h
    simp [GetProcAddressEx, resolveExport, hc]
  · intro ctx hctx h
    have he := (findExport_eq_none ctx.ImagePE.exports _).mpr h
    simp [GetProcAddressEx, resolveExport, hctx, he]
  · intro k q ctx e m sym hchain hctx he ht hm
    have hmod := (findModule_eq_none s.m_Images m).mpr hm
    unfold GetProcAddressEx
    rcases resolveExport_chain s.m_Images k (maxDepth + 1) [] _ q hchain with
      h0 | ⟨d', vis', _, heq, _, _⟩
    · exact h0
    · rw [heq]
      cases d' with
      | zero => rfl
      | succ d' =>
        rw [resolveExport]
        split_ifs
        · rfl
        · simp [hctx, he, ht, hmod]
  · intro ctx e rva hctx he ht
    simp [GetProcAddressEx, resolveExport, hctx, he, ht]

/-- C5 at concrete inputs: an unknown handle, an absent name, an absent
ordinal, a forwarder to a module that is not tracked, and a found export. -/
theorem C5_null_in_failure_cases_witness :
    GetProcAddressEx 10 exampleNumericName 0x5000 "five" = NULL ∧
    GetProcAddressEx 10 exampleNumericName 0x10000 "six" = NULL ∧
    GetProcAddressEx 10 exampleNumericName 0x10000 "6" = NULL ∧
    GetProcAddressEx 10 exampleCycle 0x30000 "h" = NULL ∧
    GetProcAddressEx 10 exampleNumericName 0x10000 "five" = 0x10000 + 0x100 :=
  ⟨(C5_null_in_failure_cases 10 exampleNumericName 0x5000 "five").1 (by decide),
   (C5_null_in_failure_cases 10 exampleNumericName 0x10000 "six").2.1 _
      (by decide : findContext exampleNumericName.m_Images 0x10000 = some
        (exampleContext 0x10000 "num.dll"
          [⟨5, some "five", .addr 0x100⟩, ⟨7, some "5", .addr 0x200⟩]))
      (by decide),
   (C5_null_in_failure_cases 10 exampleNumericName 0x10000 "6").2.1 _
      (by decide : findContext exampleNumericName.m_Images 0x10000 = some
        (exampleContext 0x10000 "num.dll"
          [⟨5, some "five", .addr 0x100⟩, ⟨7, some "5", .addr 0x200⟩]))
      (by decide),
   (C5_null_in_failure_cases 10 exampleCycle 0x30000 "h").2.2.1 0 (0x30000, .name "h")
      (exampleContext 0x30000 "c.dll" [⟨1, some "h", .forwarder "missing.dll" "k"⟩])
      ⟨1, some "h", .forwarder "missing.dll" "k"⟩ "missing.dll" "k"
      (by decide) (by decide) (by decide) rfl (by decide),
   (C5_null_in_failure_cases 10 exampleNumericName 0x10000 "five").2.2.2
      (exampleContext 0x10000 "num.dll"
        [⟨5, some "five", .addr 0x100⟩, ⟨7, some "5", .addr 0x200⟩])
      ⟨5, some "five", .addr 0x100⟩ 0x100 (by decide) (by decide) rfl⟩

/-- C6: forwarder resolution is a total function, and a forwarder chain with
more hops than the configured maximum depth, or one on which a module is
visited a second time, resolves to the null address. -/
theorem C6_forwarder_resolution_bounded (maxDepth : Nat) (s : CDarkMMap) (hMod : Nat)
    (procName : String) :
    (∀ k q, maxDepth < k →
      forwardChain s.m_Images k (hMod, parseProcName procName) = some q →
      GetProcAddressEx maxDepth s hMod procName = NULL) ∧
    (∀ i j qi qj, i < j →
      forwardChain s.m_Images i (hMod, parseProcName procName) = some qi →
      forwardChain s.m_Images j (hMod, parseProcName procName) = some qj →
      qi.1 = qj.1 →
      GetProcAddressEx maxDepth s hMod procName = NULL) := by
  refine ⟨?_, ?_⟩
  · intro k q hk hchain
    unfold GetProcAddressEx
    rcases resolveExport_chain s.m_Images k (maxDepth + 1) [] _ q hchain with
      h0 | ⟨d', vis', hd, heq, _, _⟩
    · exact h0
    · have hd0 : d' = 0 := by omega
      subst hd0
      rw [heq]
      rfl
  · intro i j qi qj hij hi hj hmod
    unfold GetProcAddressEx
    rcases resolveExport_chain s.m_Images j (maxDepth + 1) [] _ qj hj with
      h0 | ⟨d', vis', _, heq, hvis, _⟩
    · exact h0
    · rw [heq]
      exact resolveExport_visited _ _ _ _ _ (hmod ▸ hvis i hij qi hi)

/-- C6 at concrete inputs: a chain of two hops with maximum depth 1, and a
cycle between two modules with maximum depth 10. -/
theorem C6_forwarder_resolution_bounded_witness :
    GetProcAddressEx 1 exampleChain 0x10000 "f" = NULL ∧
    GetProcAddressEx 10 exampleCycle 0x10000 "f" = NULL :=
  ⟨(C6_forwarder_resolution_bounded 1 exampleChain 0x10000 "f").1 2
      (0x30000, .name "h") (by decide) (by decide),
   (C6_forwarder_resolution_bounded 10 exampleCycle 0x10000 "f").2 0 2
      (0x10000, .name "f") (0x10000, .name "f") (by decide) (by decide) (by decide) rfl⟩

/-- The chain of two hops resolves to the code once the maximum depth allows
two hops. -/
theorem exampleChain_resolves :
    GetProcAddressEx 2 exampleChain 0x10000 "f" = 0x30000 + 0x40 := by
  decide

/-! ## Relocation -/

theorem length_writeLE (w : Nat) : ∀ (img : List Nat) (off v : Nat),
    (writeLE img off w v).length = img.length := by
  induction w with
  | zero => intro img off v; rfl
  | succ w ih =>
    intro img off v
    rw [writeLE, ih, List.length_set]

/-- A store leaves every byte outside the stored range as it was. -/
theorem getElem?_writeLE_outside (w : Nat) : ∀ (img : List Nat) (off v i : Nat),
    i < off ∨ off + w ≤ i → (writeLE img off w v)[i]? = img[i]? := by
  induction w with
  | zero => intro img off v i _; rfl
  | succ w ih =>
    intro img off v i h
    rw [writeLE, ih _ _ _ _ (by omega), List.getElem?_set_ne (by omega)]

/-- A load sees only the bytes of the loaded range. -/
theorem readLE_congr (w : Nat) : ∀ (a b : List Nat) (off : Nat),
    (∀ i, off ≤ i → i < off + w → a[i]? = b[i]?) → readLE a off w = readLE b off w := by
  induction w with
  | zero => intro a b off _; rfl
  | succ w ih =>
    intro a b off h
    rw [readLE, readLE, ih a b (off + 1) (fun i h1 h2 => h i (by omega) (by omega)),
      List.getD_eq_getElem?_getD, List.getD_eq_getElem?_getD, h off (le_refl _) (by omega)]

/-- A load after a store at the same place yields the stored value, reduced
to the width of the store. -/
theorem readLE_writeLE (w : Nat) : ∀ (img : List Nat) (off v : Nat),
    off + w ≤ img.length → readLE (writeLE img off w v) off w = v % 256 ^ w := by
  induction w with
  | zero => intro img off v _; simp [readLE, Nat.mod_one]
  | succ w ih =>
    intro img off v h
    rw [readLE, writeLE, ih _ _ _ (by rw [List.length_set]; omega),
      List.getD_eq_getElem?_getD, getElem?_writeLE_outside _ _ _ _ _ (Or.inl (Nat.lt_succ_self off)),
      List.getElem?_set_self (by omega), Option.getD_some, Nat.pow_succ, Nat.mul_comm (256 ^ w) 256,
      Nat.mod_mul]

theorem addDelta_lt (w v : Nat) (d : Int) : addDelta w v d < 256 ^ w := by
  unfold addDelta
  have hpos : (0 : Int) < 2 ^ (8 * w) := by positivity
  have h1 := Int.emod_nonneg ((v : Int) + d) (ne_of_gt hpos)
  have h2 := Int.emod_lt_of_pos ((v : Int) + d) hpos
  have h3 : (256 : Nat) ^ w = 2 ^ (8 * w) := by
    rw [Nat.pow_mul]
  rw [h3]
  zify
  rw [Int.toNat_of_nonneg h1]
  exact_mod_cast h2

/-- What one applied entry does to the image. -/
theorem applyReloc_ok (img img' : List Nat) (d : Int) (e : RelocEntry)
    (h : applyReloc img d e = .ok img') :
    img'.length = img.length ∧
    (e.kind ≠ .noop →
      readLE img' e.offset e.kind.width = addDelta e.kind.width (readLE img e.offset e.kind.width) d) ∧
    (∀ i, i < e.offset ∨ e.offset + e.kind.width ≤ i → img'[i]? = img[i]?) := by
  unfold applyReloc at h
  split at h
  · injection h with h
    subst h
    rename_i hk
    exact ⟨rfl, fun hn => absurd hk hn, fun _ _ => rfl⟩
  · split_ifs at h with hb
    injection h with h
    subst h
    refine ⟨length_writeLE _ _ _ _, fun _ => ?_, fun i hi => getElem?_writeLE_outside _ _ _ _ _ hi⟩
    rw [readLE_writeLE _ _ _ _ hb, Nat.mod_eq_of_lt (addDelta_lt _ _ _)]

/-- The relocation walk on a directory whose entries patch pairwise disjoint
byte ranges: every patched value is the original value plus delta, and every
byte no entry patches is unchanged. -/
theorem applyRelocs_ok (d : Int) (entries : List RelocEntry) :
    ∀ (img img' : List Nat), applyRelocs img d entries = .ok img' →
      entries.Pairwise RelocEntry.disjoint →
      img'.length = img.length ∧
      (∀ e ∈ entries, e.kind ≠ .noop →
        readLE img' e.offset e.kind.width
          = addDelta e.kind.width (readLE img e.offset e.kind.width) d) ∧
      (∀ i, (∀ e ∈ entries, i < e.offset ∨ e.offset + e.kind.width ≤ i) →
        img'[i]? = img[i]?) := by
  induction entries with
  | nil =>
    intro img img' h _
    simp only [applyRelocs, Except.ok.injEq] at h
    subst h
    simp
  | cons e es ih =>
    intro img img' h hp
    rw [List.pairwise_cons] at hp
    rw [applyRelocs] at h
    cases h1 : applyReloc img d e with
    | error err => simp [h1] at h
    | ok img1 =>
      simp only [h1] at h
      obtain ⟨hl1, hv1, ho1⟩ := applyReloc_ok img img1 d e h1
      obtain ⟨hl, hv, ho⟩ := ih img1 img' h hp.2
      refine ⟨hl.trans hl1, ?_, ?_⟩
      · intro x hx hxn
        rcases List.mem_cons.mp hx with rfl | hxs
        · rw [← hv1 hxn]
          apply readLE_congr
          intro i hi1 hi2
          apply ho
          intro y hy
          rcases hp.1 y hy with h0 | h0 | h0 | h0 <;> omega
        · rw [hv x hxs hxn]
          congr 1
          apply readLE_congr
          intro i hi1 hi2
          apply ho1
          rcases hp.1 x hxs with h0 | h0 | h0 | h0 <;> omega
      · intro i hi
        rw [ho i (fun y hy => hi y (List.mem_cons_of_mem _ hy)), ho1 i (hi e (List.mem_cons_self _ _))]

/-- The relocation walk succeeds when every patch location lies inside the
image. -/
theorem applyRelocs_inBounds (d : Int) (entries : List RelocEntry) :
    ∀ (img : List Nat), (∀ e ∈ entries, e.offset + e.kind.width ≤ img.length) →
      ∃ img', applyRelocs img d entries = .ok img' := by
  induction entries with
  | nil => intro img _; exact ⟨img, rfl⟩
  | cons e es ih =>
    intro img h
    have he := h e (List.mem_cons_self _ _)
    have h1 : ∃ img1, applyReloc img d e = .ok img1 ∧ img1.length = img.length := by
      unfold applyReloc
      split
      · exact ⟨img, rfl, rfl⟩
      · rw [if_pos he]
        exact ⟨_, rfl, length_writeLE _ _ _ _⟩
    obtain ⟨img1, h1, hl⟩ := h1
    obtain ⟨img', h2⟩ := ih img1 (fun x hx => by rw [hl]; exact h x (List.mem_cons_of_mem _ hx))
    exact ⟨img', by rw [applyRelocs, h1]; exact h2⟩

theorem attempt_remoteCall (env : Environment) (op : RemoteOp)
    (acc : List MapError × CDarkMMap) :
    (attempt (Step.remoteCall env op) acc).2 = acc.2.log op := by
  unfold attempt Step.remoteCall
  split_ifs <;> rfl

theorem attempt_callEntryPoint (env : Environment) (ctx : ImageContext) (reason : Nat)
    (acc : List MapError × CDarkMMap) :
    (attempt (CallEntryPoint env ctx reason) acc).2 =
      if ctx.EntryPoint = NULL then acc.2
      else acc.2.log (.callEntryPoint ctx.EntryPoint ctx.pTargetBase reason) := by
  unfold CallEntryPoint
  split_ifs
  · rfl
  · exact attempt_remoteCall _ _ _

theorem log_history (s : CDarkMMap) (op : RemoteOp) :
    (s.log op).m_TargetProcess.history = s.m_TargetProcess.history ++ [op] := rfl

theorem log_actx (s : CDarkMMap) (op : RemoteOp) : (s.log op).m_pAContext = s.m_pAContext := rfl

theorem detachTls_state (env : Environment) (ctx : ImageContext) (cbs : List Nat) :
    ∀ acc : List MapError × CDarkMMap,
      (detachTls env ctx cbs acc).2.m_TargetProcess.history =
        acc.2.m_TargetProcess.history ++
          cbs.map (fun cb => .callTlsCallback cb ctx.pTargetBase DLL_PROCESS_DETACH) ∧
      (detachTls env ctx cbs acc).2.m_pAContext = acc.2.m_pAContext := by
  induction cbs with
  | nil => intro acc; simp [detachTls]
  | cons cb cbs ih =>
    intro acc
    rw [detachTls]
    obtain ⟨h1, h2⟩ := ih (attempt (Step.remoteCall env
      (.callTlsCallback cb ctx.pTargetBase DLL_PROCESS_DETACH)) acc)
    rw [h1, h2, attempt_remoteCall, log_history, log_actx]
    simp

/-- The teardown of one context performs the operations of `teardownOps` and
leaves no activation context. -/
theorem unmapImage_state (env : Environment) (ctx : ImageContext)
    (acc : List MapError × CDarkMMap) :
    (unmapImage env ctx acc).2.m_TargetProcess.history =
      acc.2.m_TargetProcess.history ++ teardownOps acc.2.m_pAContext ctx ∧
    (unmapImage env ctx acc).2.m_pAContext = NULL := by
  unfold unmapImage
  simp only
  obtain ⟨h1, h2⟩ := detachTls_state env ctx ctx.tlsCallbacks
    (attempt (CallEntryPoint env ctx DLL_PROCESS_DETACH) acc)
  generalize hA : detachTls env ctx ctx.tlsCallbacks
    (attempt (CallEntryPoint env ctx DLL_PROCESS_DETACH) acc) = a2 at h1 h2
  rw [attempt_callEntryPoint] at h1 h2
  have h3 : (attempt (DisableExceptions ctx) a2).2 = a2.2.log (.disableExceptions ctx.pTargetBase) :=
    rfl
  generalize hB : attempt (DisableExceptions ctx) a2 = a3 at h3
  have hE : (if ctx.EntryPoint = NULL then acc.2
      else acc.2.log (.callEntryPoint ctx.EntryPoint ctx.pTargetBase DLL_PROCESS_DETACH)).m_pAContext
      = acc.2.m_pAContext := by
    split_ifs <;> rfl
  have hH : (if ctx.EntryPoint = NULL then acc.2
      else acc.2.log (.callEntryPoint ctx.EntryPoint ctx.pTargetBase
        DLL_PROCESS_DETACH)).m_TargetProcess.history
      = acc.2.m_TargetProcess.history ++ (if ctx.EntryPoint = NULL then []
          else [.callEntryPoint ctx.EntryPoint ctx.pTargetBase DLL_PROCESS_DETACH]) := by
    split_ifs
    · simp
    · rfl
  rw [hE] at h2
  rw [hH] at h1
  have h4 : a3.2.m_pAContext = acc.2.m_pAContext := by rw [h3, log_actx, h2]
  have h5 : a3.2.m_TargetProcess.history = acc.2.m_TargetProcess.history ++
      (if ctx.EntryPoint = NULL then []
        else [.callEntryPoint ctx.EntryPoint ctx.pTargetBase DLL_PROCESS_DETACH]) ++
      ctx.tlsCallbacks.map (fun cb => .callTlsCallback cb ctx.pTargetBase DLL_PROCESS_DETACH) ++
      [.disableExceptions ctx.pTargetBase] := by
    rw [h3, log_history, h1]
  unfold attempt FreeActx
  by_cases hz : a3.2.m_pAContext = NULL
  · have hz' : acc.2.m_pAContext = NULL := by rw [← h4]; exact hz
    simp only [hz, if_true, releaseImage, CProcess.free, h5, teardownOps, hz']
    simp
  · have hz' : ¬ acc.2.m_pAContext = NULL := by rw [← h4]; exact hz
    simp only [hz, if_false, releaseImage, CProcess.free, teardownOps, hz', CDarkMMap.log, h5, h4]
    simp

theorem unmapImages_state (env : Environment) (ctxs : List ImageContext) :
    ∀ acc : List MapError × CDarkMMap,
      (ctxs.foldl (fun acc ctx => unmapImage env ctx acc) acc).2.m_TargetProcess.history =
        acc.2.m_TargetProcess.history ++ teardownSequence acc.2.m_pAContext ctxs := by
  induction ctxs with
  | nil => intro acc; simp [teardownSequence]
  | cons c cs ih =>
    intro acc
    rw [List.foldl_cons, ih, (unmapImage_state env c acc).1, (unmapImage_state env c acc).2,
      teardownSequence, List.append_assoc]

theorem releasedBases_append (a b : List RemoteOp) :
    releasedBases (a ++ b) = releasedBases a ++ releasedBases b := by
  simp [releasedBases, List.filterMap_append]

theorem releasedBases_teardownOps (hActx : Nat) (ctx : ImageContext) :
    releasedBases (teardownOps hActx ctx) = [ctx.pTargetBase] := by
  unfold teardownOps
  simp only [releasedBases_append]
  have h1 : releasedBases (if ctx.EntryPoint = NULL then []
      else [.callEntryPoint ctx.EntryPoint ctx.pTargetBase DLL_PROCESS_DETACH]) = [] := by
    split_ifs <;> rfl
  have h2 : releasedBases (ctx.tlsCallbacks.map
      (fun cb => .callTlsCallback cb ctx.pTargetBase DLL_PROCESS_DETACH)) = [] := by
    simp [releasedBases, List.filterMap_map]
  have h3 : releasedBases (if hActx = NULL then [] else [.releaseActx hActx]) = [] := by
    split_ifs <;> rfl
  rw [h1, h2, h3]
  rfl

theorem releasedBases_teardownSequence (ctxs : List ImageContext) :
    ∀ hActx, releasedBases (teardownSequence hActx ctxs) = ctxs.map (fun c => c.pTargetBase) := by
  induction ctxs with
  | nil => intro _; rfl
  | cons c cs ih =>
    intro hActx
    rw [teardownSequence, releasedBases_append, releasedBases_teardownOps, ih]
    rfl

theorem UnmapAllModules_of_empty (env : Environment) (s : CDarkMMap) (h : s.m_Images = []) :
    UnmapAllModules env s = (true, s) := by
  cases s
  simp only at h
  subst h
  rfl

/-- C3: UnmapAllModules empties the tracked sequence, for every state and in
particular after a MapDll; the contexts are torn down in reverse insertion
order, last mapped first; a second UnmapAllModules changes nothing and
reports success. -/
theorem C3_unmap_all_empties_and_is_idempotent (env : Environment) (s : CDarkMMap) :
    (UnmapAllModules env s).2.m_Images = [] ∧
    (∀ depth path flags,
      (UnmapAllModules env (MapDll env depth path flags s).2).2.m_Images = []) ∧
    (UnmapAllModules env s).2.m_TargetProcess.history =
      s.m_TargetProcess.history ++ teardownSequence s.m_pAContext s.m_Images.reverse ∧
    releasedBases (teardownSequence s.m_pAContext s.m_Images.reverse) =
      (s.m_Images.map (fun c => c.pTargetBase)).reverse ∧
    UnmapAllModules env (UnmapAllModules env s).2 = (true, (UnmapAllModules env s).2) := by
  refine ⟨rfl, fun _ _ _ => rfl, ?_, ?_, UnmapAllModules_of_empty env _ rfl⟩
  · unfold UnmapAllModules
    exact unmapImages_state env s.m_Images.reverse ([], s)
  · rw [releasedBases_teardownSequence, List.map_reverse]

/-! ## Mapping -/

theorem Step.keeps_extends {α : Type} {Q : ImageContext → Prop} {x : Step α}
    (h : x.Keeps) : x.Extends Q :=
  fun s => ⟨[], by simp [h s], fun _ hc => absurd hc (List.not_mem_nil _)⟩

theorem Step.extends_mono {α : Type} {Q Q' : ImageContext → Prop} {x : Step α}
    (h : x.Extends Q) (hq : ∀ c, Q c → Q' c) : x.Extends Q' := by
  intro s
  obtain ⟨added, h1, h2⟩ := h s
  exact ⟨added, h1, fun c hc => hq c (h2 c hc)⟩

theorem Step.extends_bind {α β : Type} {Q : ImageContext → Prop} {x : Step α}
    {f : α → Step β} (hx : x.Extends Q) (hf : ∀ a, (f a).Extends Q) :
    (x >>= f).Extends Q := by
  intro s
  show ∃ added, (Step.andThen x f s).2.m_Images = s.m_Images ++ added ∧ ∀ c ∈ added, Q c
  obtain ⟨a1, h1, q1⟩ := hx s
  unfold Step.andThen
  rcases hxs : x s with ⟨r, s1⟩
  rw [hxs] at h1
  cases r with
  | error e => exact ⟨a1, h1, q1⟩
  | ok a =>
    obtain ⟨a2, h2, q2⟩ := hf a s1
    refine ⟨a1 ++ a2, ?_, ?_⟩
    · simp only at h1 ⊢
      rw [h2, h1, List.append_assoc]
    · intro c hc
      rcases List.mem_append.mp hc with hc | hc
      · exact q1 c hc
      · exact q2 c hc

theorem Step.returns_bind {α β : Type} {P : α → Prop} {R : β → Prop} {x : Step α}
    {f : α → Step β} (hx : x.Returns P) (hf : ∀ a, P a → (f a).Returns R) :
    (x >>= f).Returns R := by
  intro s b s' h
  change Step.andThen x f s = _ at h
  unfold Step.andThen at h
  rcases hxs : x s with ⟨r, s1⟩
  rw [hxs] at h
  cases r with
  | error e => simp at h
  | ok a => exact hf a (hx s a s1 hxs) s1 b s' h

theorem Step.returns_true {α : Type} (x : Step α) : x.Returns (fun _ => True) :=
  fun _ _ _ _ => trivial

theorem Step.returns_done {α : Type} {R : α → Prop} (a : α) (h : R a) :
    (Step.done a).Returns R := by
  intro s b s' hb
  simp only [Step.done, Prod.mk.injEq, Except.ok.injEq] at hb
  rw [← hb.1]
  exact h

theorem Step.keeps_done {α : Type} (a : α) : (Step.done a).Keeps := fun _ => rfl

theorem Step.keeps_pure {α : Type} (a : α) : (pure a : Step α).Keeps := fun _ => rfl

theorem Step.keeps_fail {α : Type} (e : MapError) : (Step.fail e : Step α).Keeps := fun _ => rfl

theorem Step.keeps_perform (op : RemoteOp) : (Step.perform op).Keeps := fun _ => rfl

theorem Step.keeps_remoteCall (env : Environment) (op : RemoteOp) :
    (Step.remoteCall env op).Keeps := by
  intro s
  unfold Step.remoteCall
  split_ifs <;> rfl

theorem Step.keeps_ite {α : Type} {c : Prop} [Decidable c] {x y : Step α}
    (hx : x.Keeps) (hy : y.Keeps) : (if c then x else y).Keeps := by
  split_ifs
  · exact hx
  · exact hy

theorem loadImage_keeps (env : Environment) (path : String) (flags : Nat) :
    (loadImage env path flags).Keeps := by
  intro s
  unfold loadImage
  repeat' split
  all_goals rfl

theorem loadImage_returns (env : Environment) (path : String) (flags : Nat) :
    (loadImage env path flags).Returns (fun c => c.FilePath = path ∧ c.flags = flags) := by
  intro s c s' h
  unfold loadImage at h
  repeat' split at h
  all_goals simp only [Prod.mk.injEq, Except.ok.injEq, reduceCtorEq, false_and] at h
  rw [← h.1]
  exact ⟨rfl, rfl⟩

theorem allocateImage_keeps (env : Environment) (ctx : ImageContext) :
    (allocateImage env ctx).Keeps := by
  intro s
  unfold allocateImage
  split <;> rfl

theorem allocateImage_returns (env : Environment) (ctx : ImageContext) :
    (allocateImage env ctx).Returns
      (fun c => c.FilePath = ctx.FilePath ∧ c.flags = ctx.flags ∧ c.ImagePE = ctx.ImagePE) := by
  intro s c s' h
  unfold allocateImage at h
  split at h
  all_goals simp only [Prod.mk.injEq, Except.ok.injEq, reduceCtorEq, false_and] at h
  rw [← h.1]
  exact ⟨rfl, rfl, rfl⟩

theorem CopyImage_keeps (ctx : ImageContext) : (CopyImage ctx).Keeps := fun _ => rfl

theorem relocateStep_keeps (ctx : ImageContext) : (relocateStep ctx).Keeps := by
  intro s
  unfold relocateStep
  split <;> rfl

theorem ResolveImport_keeps (env : Environment) (ctx : ImageContext) :
    (ResolveImport env ctx).Keeps := by
  intro s
  unfold ResolveImport
  split_ifs <;> rfl

theorem ResolveDelayImport_keeps (env : Environment) (ctx : ImageContext) :
    (ResolveDelayImport env ctx).Keeps := by
  intro s
  unfold ResolveDelayImport
  split_ifs <;> rfl

theorem InitStaticTLS_keeps (env : Environment) (ctx : ImageContext) :
    (InitStaticTLS env ctx).Keeps := by
  intro s
  unfold InitStaticTLS
  split_ifs <;> rfl

theorem InitStaticTLS_returns (env : Environment) (ctx : ImageContext) :
    (InitStaticTLS env ctx).Returns
      (fun c => c.pTargetBase = ctx.pTargetBase ∧ c.FilePath = ctx.FilePath ∧
        c.flags = ctx.flags) := by
  intro s c s' h
  unfold InitStaticTLS at h
  split_ifs at h
  all_goals simp only [Prod.mk.injEq, Except.ok.injEq, reduceCtorEq, false_and] at h
  rw [← h.1]
  exact ⟨rfl, rfl, rfl⟩

theorem CreateActx_keeps (env : Environment) (ctx : ImageContext) (id : Nat) :
    (CreateActx env ctx id).Keeps := by
  intro s
  unfold CreateActx
  split <;> rfl

theorem RunTLSInitializers_keeps (env : Environment) (ctx : ImageContext) (reason : Nat)
    (cbs : List Nat) : (RunTLSInitializers env ctx reason cbs).Keeps := by
  induction cbs with
  | nil => exact Step.keeps_done ()
  | cons cb cbs ih =>
    intro s
    unfold RunTLSInitializers Step.andThen
    have h1 := Step.keeps_remoteCall env (.callTlsCallback cb ctx.pTargetBase reason) s
    rcases hx : Step.remoteCall env (.callTlsCallback cb ctx.pTargetBase reason) s with ⟨r, s1⟩
    rw [hx] at h1
    cases r with
    | error e => exact h1
    | ok a => exact (ih s1).trans h1

theorem CallEntryPoint_keeps (env : Environment) (ctx : ImageContext) (reason : Nat) :
    (CallEntryPoint env ctx reason).Keeps := by
  unfold CallEntryPoint
  exact Step.keeps_ite (Step.keeps_done ()) (Step.keeps_remoteCall _ _)

/-- Mapping the dependencies appends what the nested calls append. -/
theorem mapDependencies_extends (env : Environment) (mapOne : String → Step Nat)
    (Q : ImageContext → Prop) (h : ∀ p, (mapOne p).Extends Q) (descs : List ImportDesc) :
    (mapDependencies env mapOne descs).Extends Q := by
  induction descs with
  | nil => exact Step.keeps_extends (Step.keeps_done ())
  | cons d ds ih =>
    intro s
    unfold mapDependencies
    split_ifs
    · exact ih s
    · obtain ⟨a1, h1, q1⟩ := h (env.modulePath d.module) s
      rcases hx : mapOne (env.modulePath d.module) s with ⟨r, s1⟩
      rw [hx] at h1
      cases r with
      | error e => exact ⟨a1, h1, q1⟩
      | ok a =>
        obtain ⟨a2, h2, q2⟩ := ih s1
        refine ⟨a1 ++ a2, ?_, ?_⟩
        · simp only at h1 ⊢
          rw [h2, h1, List.append_assoc]
        · intro c hc
          rcases List.mem_append.mp hc with hc | hc
          · exact q1 c hc
          · exact q2 c hc

theorem Step.keeps_when {c : Bool} {x : Step Unit} (hx : x.Keeps) : (Step.when c x).Keeps := by
  unfold Step.when
  exact Step.keeps_ite hx (Step.keeps_done ())

/-- Steps 4 to 15 append to the tracked sequence only what the nested calls
for dependencies append, and nothing when manual import mapping is off. -/
theorem mapSteps_extends (env : Environment) (mapOne : String → Step Nat)
    (Q : ImageContext → Prop) (h : ∀ p, (mapOne p).Extends Q) (ctx : ImageContext) :
    (mapSteps env mapOne ctx).Extends
      (fun c => hasFlag ctx.flags .ManualImports = true ∧ Q c) := by
  unfold mapSteps
  refine Step.extends_bind (Step.keeps_extends (CopyImage_keeps ctx)) (fun _ => ?_)
  refine Step.extends_bind (Step.keeps_extends (relocateStep_keeps ctx)) (fun _ => ?_)
  refine Step.extends_bind (Step.keeps_extends (Step.keeps_perform _)) (fun _ => ?_)
  refine Step.extends_bind ?_ (fun _ => ?_)
  · unfold Step.when
    split_ifs with hf
    · exact Step.extends_mono (mapDependencies_extends env mapOne Q h _) (fun c hc => ⟨hf, hc⟩)
    · exact Step.keeps_extends (Step.keeps_done _)
  refine Step.extends_bind (Step.keeps_extends (ResolveImport_keeps env ctx)) (fun _ => ?_)
  refine Step.extends_bind (Step.keeps_extends
    (Step.keeps_when (ResolveDelayImport_keeps env ctx))) (fun _ => ?_)
  refine Step.extends_bind (Step.keeps_extends
    (Step.keeps_ite (Step.keeps_done _) (InitStaticTLS_keeps env ctx))) (fun ctx1 => ?_)
  refine Step.extends_bind (Step.keeps_extends
    (Step.keeps_when (CreateActx_keeps env ctx1 2))) (fun _ => ?_)
  refine Step.extends_bind (Step.keeps_extends (Step.keeps_perform _)) (fun _ => ?_)
  refine Step.extends_bind (Step.keeps_extends
    (Step.keeps_when (RunTLSInitializers_keeps env ctx1 _ _))) (fun _ => ?_)
  refine Step.extends_bind (Step.keeps_extends
    (Step.keeps_when (Step.keeps_perform _))) (fun _ => ?_)
  refine Step.extends_bind (Step.keeps_extends
    (Step.keeps_when (Step.keeps_perform _))) (fun _ => ?_)
  refine Step.extends_bind (Step.keeps_extends (CallEntryPoint_keeps env _ _)) (fun _ => ?_)
  refine Step.extends_bind (Step.keeps_extends
    (Step.keeps_when (Step.keeps_perform _))) (fun _ => ?_)
  exact Step.keeps_extends (Step.keeps_done _)

/-- The context steps 4 to 15 return is the one they were given, as far as its
target base, file path and flags go. -/
theorem mapSteps_returns (env : Environment) (mapOne : String → Step Nat)
    (ctx : ImageContext) :
    (mapSteps env mapOne ctx).Returns
      (fun c => c.pTargetBase = ctx.pTargetBase ∧ c.FilePath = ctx.FilePath ∧
        c.flags = ctx.flags) := by
  unfold mapSteps
  refine Step.returns_bind (Step.returns_true _) (fun _ _ => ?_)
  refine Step.returns_bind (Step.returns_true _) (fun _ _ => ?_)
  refine Step.returns_bind (Step.returns_true _) (fun _ _ => ?_)
  refine Step.returns_bind (Step.returns_true _) (fun _ _ => ?_)
  refine Step.returns_bind (Step.returns_true _) (fun _ _ => ?_)
  refine Step.returns_bind (Step.returns_true _) (fun _ _ => ?_)
  refine Step.returns_bind (P := fun c => c.pTargetBase = ctx.pTargetBase ∧
    c.FilePath = ctx.FilePath ∧ c.flags = ctx.flags) ?_ (fun ctx1 h1 => ?_)
  · split_ifs
    · exact Step.returns_done ctx ⟨rfl, rfl, rfl⟩
    · exact InitStaticTLS_returns env ctx
  refine Step.returns_bind (Step.returns_true _) (fun _ _ => ?_)
  refine Step.returns_bind (Step.returns_true _) (fun _ _ => ?_)
  refine Step.returns_bind (Step.returns_true _) (fun _ _ => ?_)
  refine Step.returns_bind (Step.returns_true _) (fun _ _ => ?_)
  refine Step.returns_bind (Step.returns_true _) (fun _ _ => ?_)
  refine Step.returns_bind (Step.returns_true _) (fun _ _ => ?_)
  refine Step.returns_bind (Step.returns_true _) (fun _ _ => ?_)
  exact Step.returns_done _ h1

theorem CompletedBy.mono {env : Environment} {depth : Nat} {c : ImageContext}
    (h : CompletedBy env depth c) : CompletedBy env (depth + 1) c := by
  obtain ⟨n, path, flags, s0, hd, s1, hn, h1, h2, h3, h4⟩ := h
  exact ⟨n, path, flags, s0, hd, s1, Nat.lt_succ_of_lt hn, h1, h2, h3, h4⟩

/-- What a `MapDll` call does to the tracked sequence: it appends the contexts
completed by nested calls and then, on success only, its own context. -/
theorem MapDll_tracked (env : Environment) (depth : Nat) :
    ∀ (path : String) (flags : Nat) (s : CDarkMMap),
      ∃ deps : List ImageContext,
        (∀ c ∈ deps, CompletedBy env depth c) ∧
        (hasFlag flags .ManualImports = false → deps = []) ∧
        match MapDll env depth path flags s with
        | (.error _, s') => s'.m_Images = s.m_Images ++ deps
        | (.ok h, s') =>
          ∃ ctx, s'.m_Images = s.m_Images ++ deps ++ [ctx] ∧
            ctx.pTargetBase = h ∧ ctx.FilePath = path ∧ ctx.flags = flags := by
  induction depth with
  | zero =>
    intro path flags s
    exact ⟨[], fun _ hc => absurd hc (List.not_mem_nil _), fun _ => rfl, by simp [MapDll, Step.fail]⟩
  | succ depth ih =>
    intro path flags s
    have hnone : ∀ c ∈ ([] : List ImageContext), CompletedBy env (depth + 1) c :=
      fun _ hc => absurd hc (List.not_mem_nil _)
    have hone : ∀ p, (MapDll env depth p flags).Extends (CompletedBy env (depth + 1)) := by
      intro p s0
      obtain ⟨deps, hd, _, hm⟩ := ih p flags s0
      rcases hr : MapDll env depth p flags s0 with ⟨r, s1⟩
      rw [hr] at hm
      cases r with
      | error e => exact ⟨deps, hm, fun c hc => (hd c hc).mono⟩
      | ok h =>
        obtain ⟨ctx, h1, h2, h3, _⟩ := hm
        refine ⟨deps ++ [ctx], by rw [h1, List.append_assoc], ?_⟩
        intro c hc
        rcases List.mem_append.mp hc with hc | hc
        · exact (hd c hc).mono
        · rw [List.mem_singleton] at hc
          subst hc
          exact ⟨depth, p, flags, s0, h, s1, Nat.lt_succ_self _, hr, by simp [h1], h2, h3⟩
    rw [MapDll]
    beta_reduce
    have hl := loadImage_keeps env path flags s
    have hlr := loadImage_returns env path flags s
    rcases hx : loadImage env path flags s with ⟨r0, s1⟩
    rw [hx] at hl
    cases r0 with
    | error e => exact ⟨[], hnone, fun _ => rfl, by simpa using hl⟩
    | ok ctx0 =>
      obtain ⟨hp0, hf0⟩ := hlr ctx0 s1 hx
      have ha := allocateImage_keeps env ctx0 s1
      have har := allocateImage_returns env ctx0 s1
      simp only
      rcases hy : allocateImage env ctx0 s1 with ⟨r1, s2⟩
      rw [hy] at ha
      cases r1 with
      | error e =>
        exact ⟨[], hnone, fun _ => rfl, by simpa using ha.trans hl⟩
      | ok ctx =>
        obtain ⟨hp1, hf1, _⟩ := har ctx s2 hy
        obtain ⟨added, hadd, hq⟩ :=
          mapSteps_extends env (fun p => MapDll env depth p flags) _ hone ctx s2
        have hmr := mapSteps_returns env (fun p => MapDll env depth p flags) ctx s2
        have h2 : s2.m_Images = s.m_Images := ha.trans hl
        refine ⟨added, fun c hc => (hq c hc).2, ?_, ?_⟩
        · intro hflag
          apply List.eq_nil_iff_forall_not_mem.mpr
          intro c hc
          have := (hq c hc).1
          rw [hf1, hf0, hflag] at this
          exact Bool.false_ne_true this
        · simp only
          rcases hz : mapSteps env (fun p => MapDll env depth p flags) ctx s2 with ⟨r2, s3⟩
          rw [hz] at hadd
          cases r2 with
          | error e =>
            simp only
            show s3.m_Images = _
            rw [hadd, h2]
          | ok ctx' =>
            obtain ⟨hb, hp2, hf2⟩ := hmr ctx' s3 hz
            simp only at hadd ⊢
            exact ⟨ctx', by rw [hadd, h2], rfl, by rw [hp2, hp1, hp0], by rw [hf2, hf1, hf0]⟩

theorem Step.bind_ok {α β : Type} {x : Step α} {f : α → Step β} {s s1 : CDarkMMap} {a : α}
    (h : x s = (.ok a, s1)) : (x >>= f) s = f a s1 := by
  show Step.andThen x f s = f a s1
  unfold Step.andThen
  rw [h]

/-- What follows a step only appends to what the step left, when it only
appends in general. -/
theorem Step.bind_after {α β : Type} {Q : ImageContext → Prop} (x : Step α)
    {f : α → Step β} (hf : ∀ a, (f a).Extends Q) (s : CDarkMMap) :
    ∃ rest, ((x >>= f) s).2.m_Images = (x s).2.m_Images ++ rest := by
  show ∃ rest, (Step.andThen x f s).2.m_Images = (x s).2.m_Images ++ rest
  unfold Step.andThen
  rcases hx : x s with ⟨r, s1⟩
  cases r with
  | error e => exact ⟨[], by simp⟩
  | ok a =>
    obtain ⟨added, h1, _⟩ := hf a s1
    exact ⟨added, h1⟩

/-- What a call made while the dependencies are mapped left in the tracked
sequence is still there, in place, when the dependency step ends. -/
theorem mapDependencies_keeps_call (env : Environment) (mapOne : String → Step Nat)
    (hone : ∀ p, (mapOne p).Extends (fun _ => True))
    {descs : List ImportDesc} {s : CDarkMMap} {p : String} {s0 : CDarkMMap}
    (hc : DependencyCall env mapOne descs s p s0) :
    ∃ rest, (mapDependencies env mapOne descs s).2.m_Images =
      (mapOne p s0).2.m_Images ++ rest := by
  induction hc with
  | @here d ds s hp =>
    rw [mapDependencies]
    simp only [hp, Bool.false_eq_true, if_false]
    rcases hx : mapOne (env.modulePath d.module) s with ⟨r, s1⟩
    cases r with
    | error e => exact ⟨[], by simp⟩
    | ok a =>
      obtain ⟨added, h1, _⟩ := mapDependencies_extends env mapOne _ hone ds s1
      exact ⟨added, h1⟩
  | @skip d ds s p s0 hp _ ih =>
    rw [mapDependencies]
    simp only [hp, if_true]
    exact ih
  | @next d ds s h s1 p s0 hp hm _ ih =>
    rw [mapDependencies]
    simp only [hp, Bool.false_eq_true, if_false, hm]
    exact ih

/-- What a call made by a `MapDll` call left in the tracked sequence is still
there, in place, when that `MapDll` call returns, whether it fails or
succeeds. -/
theorem DirectCall.keeps_tracked {env : Environment} {outer inner : MapCall}
    (h : DirectCall env outer inner) :
    ∃ rest, (outer.run env).2.m_Images = (inner.run env).2.m_Images ++ rest := by
  obtain ⟨depth, ctx0, s1, ctx, s2, sa, sb, s3, hd, hl, ha, hc, hr, hp, hf, hid, hif, hdep⟩ := h
  have hone : ∀ p, (MapDll env depth p outer.flags).Extends (fun _ => True) := by
    intro p s
    obtain ⟨deps, _, _, hm⟩ := MapDll_tracked env depth p outer.flags s
    rcases hx : MapDll env depth p outer.flags s with ⟨r, s'⟩
    rw [hx] at hm
    cases r with
    | error e => exact ⟨deps, hm, fun _ _ => trivial⟩
    | ok hnd =>
      obtain ⟨c, h1, _⟩ := hm
      exact ⟨deps ++ [c], by rw [h1, List.append_assoc], fun _ _ => trivial⟩
  obtain ⟨r1, hr1⟩ := mapDependencies_keeps_call env _ hone hdep
  have hinner : inner.run env = MapDll env depth inner.path outer.flags inner.state := by
    rw [MapCall.run, hid, hif]
  rw [hinner]
  have hsteps : ∃ rest, (mapSteps env (fun p => MapDll env depth p outer.flags) ctx s2).2.m_Images
      = (mapDependencies env (fun p => MapDll env depth p outer.flags) ctx.ImagePE.imports
          s3).2.m_Images ++ rest := by
    rw [mapSteps, Step.bind_ok hc, Step.bind_ok hr, Step.bind_ok hp]
    have hw : Step.when (hasFlag ctx.flags .ManualImports)
        (mapDependencies env (fun p => MapDll env depth p outer.flags) ctx.ImagePE.imports)
        = mapDependencies env (fun p => MapDll env depth p outer.flags) ctx.ImagePE.imports := by
      rw [Step.when, hf, if_pos rfl]
    rw [hw]
    apply Step.bind_after (Q := fun _ => True)
    intro _
    refine Step.extends_bind (Step.keeps_extends (ResolveImport_keeps env ctx)) (fun _ => ?_)
    refine Step.extends_bind (Step.keeps_extends
      (Step.keeps_when (ResolveDelayImport_keeps env ctx))) (fun _ => ?_)
    refine Step.extends_bind (Step.keeps_extends
      (Step.keeps_ite (Step.keeps_done _) (InitStaticTLS_keeps env ctx))) (fun ctx1 => ?_)
    refine Step.extends_bind (Step.keeps_extends
      (Step.keeps_when (CreateActx_keeps env ctx1 2))) (fun _ => ?_)
    refine Step.extends_bind (Step.keeps_extends (Step.keeps_perform _)) (fun _ => ?_)
    refine Step.extends_bind (Step.keeps_extends
      (Step.keeps_when (RunTLSInitializers_keeps env ctx1 _ _))) (fun _ => ?_)
    refine Step.extends_bind (Step.keeps_extends
      (Step.keeps_when (Step.keeps_perform _))) (fun _ => ?_)
    refine Step.extends_bind (Step.keeps_extends
      (Step.keeps_when (Step.keeps_perform _))) (fun _ => ?_)
    refine Step.extends_bind (Step.keeps_extends (CallEntryPoint_keeps env _ _)) (fun _ => ?_)
    refine Step.extends_bind (Step.keeps_extends
      (Step.keeps_when (Step.keeps_perform _))) (fun _ => ?_)
    exact Step.keeps_extends (Step.keeps_done _)
  obtain ⟨r2, hr2⟩ := hsteps
  rw [MapCall.run, hd, MapDll]
  beta_reduce
  rw [hl]
  simp only
  rw [ha]
  simp only
  rcases hz : mapSteps env (fun p => MapDll env depth p outer.flags) ctx s2 with ⟨r, s4⟩
  rw [hz] at hr2
  cases r with
  | error e =>
    refine ⟨r1 ++ r2, ?_⟩
    show s4.m_Images = _
    rw [hr2, hr1, List.append_assoc]
  | ok ctx' =>
    refine ⟨r1 ++ r2 ++ [ctx'], ?_⟩
    show s4.m_Images ++ [ctx'] = _
    simp only at hr2
    rw [hr2, hr1]
    simp

/-- What a call of the call chain left in the tracked sequence is still there,
in place, when the outermost call returns. -/
theorem InCallChain.keeps_chain {env : Environment} {outer inner : MapCall}
    (h : InCallChain env outer inner) :
    ∃ rest, (outer.run env).2.m_Images = (inner.run env).2.m_Images ++ rest := by
  induction h with
  | single hd => exact hd.keeps_tracked
  | tail _ hd ih =>
    obtain ⟨r1, h1⟩ := ih
    obtain ⟨r2, h2⟩ := hd.keeps_tracked
    exact ⟨r2 ++ r1, by rw [h1, h2, List.append_assoc]⟩

/-- A run that succeeds: with manual import mapping, "main.dll" is mapped after
its dependency "dep.dll"; the handle is the base of the last tracked context. -/
theorem exampleRun_success :
    observe (MapDll exampleEnv 3 "C:\\app\\main.dll" eLoadFlags.ManualImports.val
      (exampleMapper [])) =
    (some 0x110000, [("dep.dll", 0x120000), ("main.dll", 0x110000)]) := by
  simp [observe, MapDll, loadImage, allocateImage, mapSteps, exampleEnv, exampleFiles,
    exampleMapper, fileNameOf, CopyImage, relocateStep, RelocateImage, applyRelocs, applyReloc,
    readLE, writeLE, addDelta, RelocKind.width,
    ProtectImageMemory, Step.perform, Step.when, Step.done, Step.andThen, Step.fail, hasFlag,
    mapDependencies, modulePresent, findModule, ResolveImport, ResolveDelayImport,
    importsResolve, importAddress, GetProcAddressEx, resolveExport, findContext, findExport,
    parseProcName, InitStaticTLS, CreateActx, InitializeCookie, RunTLSInitializers,
    EnableExceptions, CallEntryPoint, entryPointOf, releaseImage, CProcess.free, CProcess.read,
    CProcess.write, CDarkMMap.log, copySections, writeBytes, eLoadFlags.val,
    ImageContext.ImageContext, bind, pure, Step.remoteCall, NULL, ProcRequest.selects,
    digitsValue]

/-- A run that fails after a dependency was completed: "bad.dll" imports a
symbol "dep.dll" does not export; the dependency stays tracked and the context
of "bad.dll" is not added. -/
theorem exampleRun_failure_keeps_dependency :
    observe (MapDll exampleEnv 3 "C:\\app\\bad.dll" eLoadFlags.ManualImports.val
      (exampleMapper [])) =
    (none, [("dep.dll", 0x120000)]) := by
  simp [observe, MapDll, loadImage, allocateImage, mapSteps, exampleEnv, exampleFiles,
    exampleMapper, fileNameOf, CopyImage, relocateStep, RelocateImage, applyRelocs,
    ProtectImageMemory, Step.perform, Step.when, Step.done, Step.andThen, Step.fail, hasFlag,
    mapDependencies, modulePresent, findModule, ResolveImport, ResolveDelayImport,
    importsResolve, importAddress, GetProcAddressEx, resolveExport, findContext, findExport,
    parseProcName, InitStaticTLS, CreateActx, InitializeCookie, RunTLSInitializers,
    EnableExceptions, CallEntryPoint, entryPointOf, releaseImage, CProcess.free, CProcess.read,
    CProcess.write, CDarkMMap.log, copySections, writeBytes, eLoadFlags.val,
    ImageContext.ImageContext, bind, pure, Step.remoteCall, NULL, ProcRequest.selects,
    digitsValue]

/-- A run that fails without manual import mapping: the dependency is not
present, the import fails, and nothing is tracked. -/
theorem exampleRun_failure_adds_nothing :
    observe (MapDll exampleEnv 3 "C:\\app\\main.dll" eLoadFlags.NoFlags.val
      (exampleMapper [])) =
    (none, []) := by
  simp [observe, MapDll, loadImage, allocateImage, mapSteps, exampleEnv, exampleFiles,
    exampleMapper, fileNameOf, CopyImage, relocateStep, RelocateImage, applyRelocs, applyReloc,
    readLE, writeLE, addDelta, RelocKind.width,
    ProtectImageMemory, Step.perform, Step.when, Step.done, Step.andThen, Step.fail, hasFlag,
    mapDependencies, modulePresent, findModule, ResolveImport, ResolveDelayImport,
    importsResolve, importAddress, releaseImage, CProcess.free, CProcess.read,
    CProcess.write, CDarkMMap.log, copySections, writeBytes, eLoadFlags.val,
    ImageContext.ImageContext, bind, pure, NULL]

/-- An unmapping run: two tracked contexts, the second one mapped last; the
regions are released last mapped first, nothing stays tracked, and the call
reports success. -/
theorem exampleUnmap_order :
    (UnmapAllModules exampleEnv
      (exampleMapper [exampleContext 0x120000 "dep.dll" [], exampleContext 0x110000 "main.dll" []])).1
      = true ∧
    releasedBases (UnmapAllModules exampleEnv
      (exampleMapper [exampleContext 0x120000 "dep.dll" [],
        exampleContext 0x110000 "main.dll" []])).2.m_TargetProcess.history
      = [0x110000, 0x120000] ∧
    (UnmapAllModules exampleEnv
      (exampleMapper [exampleContext 0x120000 "dep.dll" [],
        exampleContext 0x110000 "main.dll" []])).2.m_Images = [] := by
  decide

end ds_mmap
